import Mathlib

/-!
Verification of the `treescan` filesystem-scan program (src/main.rs) against its
natural-language specification.

The Rust program is shallowly embedded as follows.

* The filesystem seen by one invocation is static during the scan and is
  modelled by the inductive `FsNode`: a rose tree whose `dir` nodes carry the
  exact sequence of items that `WalkDir::new(dir).sort_by_file_name()
  .min_depth(1).max_depth(1).same_file_system(true)` yields for that directory
  (the walkdir crate is an external collaborator; its enumeration order and
  possible `Err` items are therefore part of the input, an `errItem` models an
  `Err` yielded by the iterator).  With `max_depth(1)` the `same_file_system`
  option cannot affect the yielded items, so it needs no further modelling.
* `std::fs` metadata is modelled per node: the `meta` field is the result of
  `symlink_metadata` on the node's path (`none` = the call fails).  For
  non-symlink nodes `fs::metadata` agrees with `symlink_metadata`; for a
  symlink whose own lstat fails, the following `fs::metadata` fails as well.
  `Path::is_dir`/`is_file`/`is_symlink` are derived from these exactly as in
  `std` (`metadata(path).map(check).unwrap_or(false)`).
* Machine integers (`u64` lengths, counters, device ids, uids/gids) are `Nat`
  with an explicit `% 2 ^ 64` where the Rust arithmetic can wrap.
* Rust `String`s holding user/group names are UTF-8 byte lists (`List Nat`),
  because `String::len` and slicing in the source are byte-based.  Strings that
  are ASCII by construction (permissions, timestamps, hex digests, suffixes)
  are Lean `String`s.
* Panics (`unwrap` on a failing call, byte-slicing off a char boundary) are
  modelled by `Option`: a `none` result of `report`/`visit`/`scan` is a panic
  that aborts the invocation.
* External crates that the core calls are oracles supplied in `Env`
  (`users::get_user_by_uid`, `users::get_group_by_gid`, the `chrono` timestamp
  formatter, `unix_mode::to_string`); the `md5` crate is implemented in full
  (`md5Bytes`) because the spec makes claims about the digest of the empty
  accumulator.  `Context::consume` over several chunks followed by `compute`
  equals the one-shot digest of the concatenated chunks, so the streaming
  accumulator is modelled by the list of bytes consumed so far.
* Output is a list of `OutEvent`s, one per `println!`.  Entry events carry the
  entry's path and the `depth` argument of the enclosing `visit` call as ghost
  data so that temporal claims about directory levels can be stated; the
  printed text of an entry line is the fields of its `EntryLine`.
-/

/-- Metadata of one filesystem object, as returned by a successful
`std::fs::Metadata` lookup: `dev()`, `len()`, `permissions().mode()`,
`modified()` (`none` = the call returns `Err`), `uid()`, `gid()`. -/
structure Meta where
  dev : Nat
  len : Nat
  mode : Nat
  mtime : Option Nat
  uid : Nat
  gid : Nat
deriving Repr, DecidableEq

/-- A node of the static filesystem, together with everything the scanner can
observe about it.

* `file`: a regular file; `contents` is `none` when `File::open` fails,
  `readFail = some k` means the `k`-th 64 KiB chunk read returns `Err`.
* `dir`: a directory; `entries` is the item sequence the sorted, depth-1
  bounded `WalkDir` yields for it.
* `symlink`: `target` is `none` when `std::fs::read_link` fails; `statDir`
  records whether `fs::metadata` (which follows the link) resolves to a
  directory, used by `Path::is_dir` on the link.
* `other`: sockets, fifos, device nodes, ...
* `errItem`: an `Err` item yielded by the `WalkDir` iterator (enumeration
  failure); `msg` is its debug rendering. -/
inductive FsNode where
  | file (name : String) (meta : Option Meta) (contents : Option (List Nat))
      (readFail : Option Nat)
  | dir (name : String) (meta : Option Meta) (entries : List FsNode)
  | symlink (name : String) (meta : Option Meta) (target : Option String)
      (statDir : Bool)
  | other (name : String) (meta : Option Meta)
  | errItem (msg : String)

mutual

/-- Size of a node, for termination measures. -/
def nodeSize : FsNode → Nat
  | .dir _ _ es => 1 + entriesSize es
  | _ => 1

/-- Total size of a list of nodes. -/
def entriesSize : List FsNode → Nat
  | [] => 0
  | e :: r => nodeSize e + entriesSize r

end

/-- The final path component (`Path::file_name`, then `to_string_lossy`).
Enumerated entries always have one; `errItem` is never reported. -/
def nodeName : FsNode → String
  | .file n _ _ _ => n
  | .dir n _ _ => n
  | .symlink n _ _ _ => n
  | .other n _ => n
  | .errItem _ => "?"

/-- `std::fs::symlink_metadata` on the node's path. -/
def lstatMeta : FsNode → Option Meta
  | .file _ m _ _ => m
  | .dir _ m _ => m
  | .symlink _ m _ _ => m
  | .other _ m => m
  | .errItem _ => none

/-- `std::fs::metadata` on the node's path (follows symlinks).  For non-symlink
nodes it agrees with `symlink_metadata`; for a symlink it can only succeed if
the link's own lstat does (same path resolution), and the scanner never
consults the followed metadata of a live symlink, so its value is only needed
to make `Path::is_dir`/`is_file` false when lstat fails. -/
def statMeta : FsNode → Option Meta
  | .file _ m _ _ => m
  | .dir _ m _ => m
  | .symlink _ m _ _ => if m.isSome then m else none
  | .other _ m => m
  | .errItem _ => none

/-- `Path::is_symlink` = `symlink_metadata(path).map(|m| is_symlink).unwrap_or(false)`. -/
def isSymlink : FsNode → Bool
  | .symlink _ m _ _ => m.isSome
  | _ => false

/-- `Path::is_dir` = `fs::metadata(path).map(|m| m.is_dir()).unwrap_or(false)`
(follows symlinks: for a live symlink this is its `statDir` observation). -/
def isDirF : FsNode → Bool
  | .dir _ m _ => m.isSome
  | .symlink _ m _ d => m.isSome && d
  | _ => false

/-- `Path::is_file` = `fs::metadata(path).map(|m| m.is_file()).unwrap_or(false)`.
For a live symlink the scanner only evaluates this after `is_symlink` has
already matched, so the followed value is irrelevant; a symlink to a regular
file would also take the symlink branch first.  We record `false` for
symlinks, which is exact for the one place it is consulted. -/
def isFileF : FsNode → Bool
  | .file _ m _ _ => m.isSome
  | _ => false

/-- The items `WalkDir::new(path).min_depth(1).max_depth(1)` yields: the
stored entry sequence for a directory, nothing for anything else. -/
def entriesOf : FsNode → List FsNode
  | .dir _ _ es => es
  | _ => []

/-- `std::fs::read_link` on a symlink's path, `to_string_lossy`ed. -/
def readLinkTarget : FsNode → Option String
  | .symlink _ _ t _ => t
  | _ => none

/-- `contents` of a regular file (`none` = `File::open` fails). -/
def fileContents : FsNode → Option (List Nat)
  | .file _ _ c _ => c
  | _ => none

/-- Index of the chunk read that returns `Err`, if any. -/
def fileReadFail : FsNode → Option Nat
  | .file _ _ _ rf => rf
  | _ => none

/-- The validated configuration the CLI layer hands to the core
(`Args`: `debug`, `maxsumsize` in MiB as `u64`, `hashlen` as `u32`). -/
structure Config where
  debug : Bool
  maxsumsize : Nat
  hashlen : Nat
deriving Repr, DecidableEq

/-- Oracles for the external collaborators the entry reporter calls:
`users::get_user_by_uid` / `users::get_group_by_gid` (name bytes after
`to_string_lossy`), the `chrono` `%Y-%m-%dT%H:%M` formatter applied to a
successful `modified()` timestamp, and `unix_mode::to_string`. -/
structure Env where
  getUserByUid : Nat → Option (List Nat)
  getGroupByGid : Nat → Option (List Nat)
  formatTime : Nat → String
  permString : Nat → String

/-- The mutable scanner state (`struct Scanner`): uid/gid name caches, current
root path, last subdirectory (`parent`, written but never read), device id of
the current root and the running byte counter. -/
structure ScanState where
  users : List (Nat × List Nat)
  groups : List (Nat × List Nat)
  root : List String
  parent : List String
  dev : Nat
  count : Nat
deriving Repr, DecidableEq

/-- `Scanner::new`: empty caches, empty paths, zero device and counter. -/
def initState : ScanState :=
  { users := [], groups := [], root := [], parent := [], dev := 0, count := 0 }

/-- The fields of one formatted entry line, in the order of the final
`println!("{:10} {:10} {:17} {:16} {:8} {}{}", perms, flen, owner, ts, hash,
fname, extra)`.  `owner` is the byte string produced by
`format!("{:8} {:8}", user, group)`. -/
structure EntryLine where
  perms : String
  flen : Nat
  owner : List Nat
  ts : String
  hash : String
  fname : String
  extra : String
deriving Repr, DecidableEq

/-- One `println!` of the scanner.  `entry` carries the path of the reported
entry and the `depth` argument of the `visit` call that reported it as ghost
data (they are not part of the printed line). -/
inductive OutEvent where
  | sep
  | rootHeader (path : List String)
  | blank
  | dirHeader (rel : List String)
  | entry (depth : Nat) (path : List String) (line : EntryLine)
  | errLine (msg : String)
  | total (count : Nat)
deriving Repr, DecidableEq

/-! ### MD5 (the `md5` crate), over `Nat` words reduced mod `2 ^ 32` -/

/-- Bitwise AND of two 32-bit words, by structural recursion on the width. -/
def andBits : Nat → Nat → Nat → Nat
  | 0, _, _ => 0
  | k + 1, a, b => (a % 2) * (b % 2) + 2 * andBits k (a / 2) (b / 2)

/-- Bitwise OR of two 32-bit words. -/
def orBits : Nat → Nat → Nat → Nat
  | 0, _, _ => 0
  | k + 1, a, b => (a % 2 + b % 2 - (a % 2) * (b % 2)) + 2 * orBits k (a / 2) (b / 2)

/-- Bitwise XOR of two 32-bit words. -/
def xorBits : Nat → Nat → Nat → Nat
  | 0, _, _ => 0
  | k + 1, a, b => (a % 2 + b % 2) % 2 + 2 * xorBits k (a / 2) (b / 2)

def and32 (a b : Nat) : Nat := andBits 32 a b

def or32 (a b : Nat) : Nat := orBits 32 a b

def xor32 (a b : Nat) : Nat := xorBits 32 a b

/-- Bitwise complement of a 32-bit word. -/
def not32 (a : Nat) : Nat := 4294967295 - a % 4294967296

def add32 (a b : Nat) : Nat := (a + b) % 4294967296

/-- Left-rotation of a 32-bit word by `s` bits. -/
def rotl32 (x s : Nat) : Nat :=
  (x % 4294967296 * 2 ^ s + x % 4294967296 / 2 ^ (32 - s)) % 4294967296

/-- The 64 MD5 round constants `K[i] = floor(2^32 * |sin(i+1)|)`. -/
def md5K : List Nat :=
  [0xd76aa478, 0xe8c7b756, 0x242070db, 0xc1bdceee,
   0xf57c0faf, 0x4787c62a, 0xa8304613, 0xfd469501,
   0x698098d8, 0x8b44f7af, 0xffff5bb1, 0x895cd7be,
   0x6b901122, 0xfd987193, 0xa679438e, 0x49b40821,
   0xf61e2562, 0xc040b340, 0x265e5a51, 0xe9b6c7aa,
   0xd62f105d, 0x02441453, 0xd8a1e681, 0xe7d3fbc8,
   0x21e1cde6, 0xc33707d6, 0xf4d50d87, 0x455a14ed,
   0xa9e3e905, 0xfcefa3f8, 0x676f02d9, 0x8d2a4c8a,
   0xfffa3942, 0x8771f681, 0x6d9d6122, 0xfde5380c,
   0xa4beea44, 0x4bdecfa9, 0xf6bb4b60, 0xbebfbc70,
   0x289b7ec6, 0xeaa127fa, 0xd4ef3085, 0x04881d05,
   0xd9d4d039, 0xe6db99e5, 0x1fa27cf8, 0xc4ac5665,
   0xf4292244, 0x432aff97, 0xab9423a7, 0xfc93a039,
   0x655b59c3, 0x8f0ccc92, 0xffeff47d, 0x85845dd1,
   0x6fa87e4f, 0xfe2ce6e0, 0xa3014314, 0x4e0811a1,
   0xf7537e82, 0xbd3af235, 0x2ad7d2bb, 0xeb86d391]

/-- The per-round left-rotation amounts. -/
def md5S : List Nat :=
  [7, 12, 17, 22, 7, 12, 17, 22, 7, 12, 17, 22, 7, 12, 17, 22,
   5, 9, 14, 20, 5, 9, 14, 20, 5, 9, 14, 20, 5, 9, 14, 20,
   4, 11, 16, 23, 4, 11, 16, 23, 4, 11, 16, 23, 4, 11, 16, 23,
   6, 10, 15, 21, 6, 10, 15, 21, 6, 10, 15, 21, 6, 10, 15, 21]

/-- Little-endian 32-bit word `j` of a 64-byte block. -/
def blockWord (block : List Nat) (j : Nat) : Nat :=
  block.getD (4 * j) 0 + 256 * block.getD (4 * j + 1) 0 +
    65536 * block.getD (4 * j + 2) 0 + 16777216 * block.getD (4 * j + 3) 0

/-- One MD5 round `i` (0-based) on state `(A, B, C, D)`. -/
def md5Step (block : List Nat) (i : Nat) :
    Nat × Nat × Nat × Nat → Nat × Nat × Nat × Nat
  | (a, b, c, d) =>
    let f :=
      if i < 16 then or32 (and32 b c) (and32 (not32 b) d)
      else if i < 32 then or32 (and32 d b) (and32 (not32 d) c)
      else if i < 48 then xor32 b (xor32 c d)
      else xor32 c (or32 b (not32 d))
    let g :=
      if i < 16 then i
      else if i < 32 then (5 * i + 1) % 16
      else if i < 48 then (3 * i + 5) % 16
      else 7 * i % 16
    let f2 := add32 f (add32 a (add32 (md5K.getD i 0) (blockWord block g)))
    (d, add32 b (rotl32 f2 (md5S.getD i 0)), b, c)

/-- `n` remaining MD5 rounds; round index is `64 - n`. -/
def md5Rounds (block : List Nat) : Nat → Nat × Nat × Nat × Nat → Nat × Nat × Nat × Nat
  | 0, st => st
  | n + 1, st => md5Rounds block n (md5Step block (63 - n) st)

/-- Process `nblocks` 64-byte blocks from the front of `bytes`. -/
def md5Blocks : Nat → List Nat → Nat × Nat × Nat × Nat → Nat × Nat × Nat × Nat
  | 0, _, st => st
  | n + 1, bytes, st =>
    let block := bytes.take 64
    let r := md5Rounds block 64 st
    md5Blocks n (bytes.drop 64)
      (add32 st.1 r.1, add32 st.2.1 r.2.1, add32 st.2.2.1 r.2.2.1,
        add32 st.2.2.2 r.2.2.2)

/-- `k` little-endian bytes of `x` (truncating, like storing into `k` bytes). -/
def leBytes : Nat → Nat → List Nat
  | 0, _ => []
  | k + 1, x => x % 256 :: leBytes k (x / 256)

/-- MD5 padding: `0x80`, zeros to 56 mod 64, then the 8-byte little-endian
bit length (mod `2 ^ 64`, by truncation to 8 bytes). -/
def md5Pad (msg : List Nat) : List Nat :=
  msg ++ 128 :: List.replicate ((119 - msg.length % 64) % 64) 0 ++
    leBytes 8 (8 * msg.length)

/-- The full MD5 digest (16 bytes) of a byte string. -/
def md5Bytes (msg : List Nat) : List Nat :=
  let padded := md5Pad msg
  let r := md5Blocks (padded.length / 64) padded
    (0x67452301, 0xefcdab89, 0x98badcfe, 0x10325476)
  leBytes 4 r.1 ++ leBytes 4 r.2.1 ++ leBytes 4 r.2.2.1 ++ leBytes 4 r.2.2.2

/-- A hex digit character (lowercase, as `hex::encode`). -/
def hexChar (n : Nat) : Char :=
  if n < 10 then Char.ofNat (48 + n) else Char.ofNat (87 + n)

/-- `hex::encode` as a character list (the hex string is ASCII, so Rust byte
slicing on it is character slicing). -/
def hexChars : List Nat → List Char
  | [] => []
  | b :: r => hexChar (b / 16) :: hexChar (b % 16) :: hexChars r

set_option maxRecDepth 100000 in
/-- The `md5` crate digest of the empty input, matching the program's own
unit test `assert_eq!("d41d8cd98f00b204e9800998ecf8427e", ...)`. -/
theorem md5_empty_digest :
    String.mk (hexChars (md5Bytes [])) = "d41d8cd98f00b204e9800998ecf8427e" := by
  decide

/-! ### Owner/group name resolution and rendering (main.rs lines 168-209) -/

/-- Whether a byte is a UTF-8 continuation byte (`0b10xxxxxx`).  Rust's
`str::is_char_boundary(i)` for `0 < i < len` is exactly "byte `i` is not a
continuation byte". -/
def utf8IsCont (b : Nat) : Bool := 128 ≤ b && b < 192

/-- Number of characters in a UTF-8 byte string (= number of bytes that are
not continuation bytes).  Rust's `format!` width specifiers pad to this
character count. -/
def utf8CharCount (b : List Nat) : Nat :=
  (b.filter (fun x => !utf8IsCont x)).length

/-- Pad a byte string on the right with spaces to a display width of `w`
characters (`format!("{:w}")` / `format!("{:<w}")` on a string). -/
def padChars (w : Nat) (b : List Nat) : List Nat :=
  b ++ List.replicate (w - utf8CharCount b) 32

/-- Lines 181-186 / 202-207: `if name.len() > 8 { format!("~{:<7}",
&name[name.len()-7..]) } else { name }`.  `len()` and the slice are
byte-based; slicing at a position that is not a UTF-8 character boundary
panics, modelled by `none`. -/
def renderName (name : List Nat) : Option (List Nat) :=
  if name.length > 8 then
    if utf8IsCont (name.getD (name.length - 7) 0) then none
    else some (126 :: padChars 7 (name.drop (name.length - 7)))
  else some name

/-- Lines 169-179 / 190-200: look the id up in the session cache; on a miss
resolve it through the external oracle (or use `"?"`, byte `63`, when the id
is unresolvable), insert the result and return the now-cached value. -/
def cacheLookup (cache : List (Nat × List Nat)) (resolve : Nat → Option (List Nat))
    (id : Nat) : List Nat × List (Nat × List Nat) :=
  match cache.lookup id with
  | some name => (name, cache)
  | none =>
    let name := match resolve id with
      | some nm => nm
      | none => [63]
    (name, (id, name) :: cache)

/-- The name a lookup would yield: cached value, else oracle, else `"?"`. -/
def effName (cache : List (Nat × List Nat)) (resolve : Nat → Option (List Nat))
    (id : Nat) : List Nat :=
  (cacheLookup cache resolve id).1

/-- Line 209: `format!("{:8} {:8}", &user, &group)`. -/
def ownerField (user group : List Nat) : List Nat :=
  padChars 8 user ++ 32 :: padChars 8 group

/-! ### Conditional hashing (main.rs lines 233-252) -/

/-- The wrapped threshold `self.args.maxsumsize * 1024*1024` in `u64`
arithmetic (release builds wrap on overflow). -/
def hashThreshold (cfg : Config) : Nat :=
  cfg.maxsumsize * 1024 * 1024 % 2 ^ 64

/-- Line 233: `flen > 0 && flen < self.args.maxsumsize * 1024*1024`. -/
def hashEligible (cfg : Config) (flen : Nat) : Bool :=
  decide (0 < flen) && decide (flen < hashThreshold cfg)

/-- Lines 237-246: stream the open file in 64 KiB chunks into the digest
accumulator.  `consumed` is the bytes fed to `Context::consume` so far,
`remaining` the unread bytes, `idx` the index of the next chunk read; a read
returning `Err` (`readFail = some idx`) exits the loop, a short chunk is
consumed and then ends it. -/
def hashLoop (consumed remaining : List Nat) (idx : Nat) (readFail : Option Nat) :
    List Nat :=
  if readFail = some idx then consumed
  else if (remaining.take 65536).length < 65536 then consumed ++ remaining.take 65536
  else hashLoop (consumed ++ remaining.take 65536) (remaining.drop 65536) (idx + 1) readFail
termination_by remaining.length
decreasing_by
  simp_all only [List.length_take, List.length_drop, not_lt]
  omega

/-- The bytes the digest accumulator receives for one regular file: nothing
at all when `File::open` fails (line 235), otherwise the chunk loop's
consumption. -/
def hashInput (contents : Option (List Nat)) (readFail : Option Nat) : List Nat :=
  match contents with
  | some bytes => hashLoop [] bytes 0 readFail
  | none => []

/-- A run of `n` dashes (`"-".repeat(n)`). -/
def dashes (n : Nat) : String :=
  String.mk (List.replicate n '-')

/-! ### The entry reporter (main.rs lines 135-259) -/

/-- Lines 216-258: type dispatch (symlink first, else directory, else regular
file, else other), byte-counter update, hash computation and the final
`println!`.  A `none` result is a panic: `read_link(path).unwrap()` failing
on a symlink. -/
def finishReport (cfg : Config) (st : ScanState) (node : FsNode) (fname : String)
    (perms : String) (flen : Nat) (owner : List Nat) (ts : String)
    (otherdev : Bool) : Option (ScanState × EntryLine) :=
  if isSymlink node then
    match readLinkTarget node with
    | none => none
    | some tgt =>
      some ({ st with count := (st.count + flen) % 2 ^ 64 },
        { perms := perms, flen := flen, owner := owner, ts := ts, hash := "",
          fname := fname, extra := " -> " ++ tgt })
  else if isDirF node then
    some (st,
      { perms := perms, flen := 0, owner := owner, ts := "", hash := "",
        fname := fname,
        extra := if otherdev then "/ (mountpoint)" else "/" })
  else if isFileF node then
    let st1 := { st with count := (st.count + flen) % 2 ^ 64 }
    if hashEligible cfg flen then
      some (st1,
        { perms := perms, flen := flen, owner := owner, ts := ts,
          hash := String.mk
            ((hexChars (md5Bytes (hashInput (fileContents node) (fileReadFail node)))).take 8),
          fname := fname, extra := "" })
    else
      some (st1,
        { perms := perms, flen := flen, owner := owner, ts := ts,
          hash := dashes cfg.hashlen, fname := fname, extra := "" })
  else
    some (st,
      { perms := perms, flen := flen, owner := owner, ts := ts, hash := "",
        fname := fname, extra := "" })

/-- `Scanner::report` (lines 135-259): metadata lookup (symlink-aware),
field extraction, owner/group resolution with caching and truncation, then
`finishReport`.  A `none` result is a panic (failed `read_link` unwrap, or
name byte-slicing off a character boundary). -/
def report (cfg : Config) (env : Env) (st : ScanState) (node : FsNode) :
    Option (ScanState × EntryLine) :=
  let fname := nodeName node
  let meta := if isSymlink node then lstatMeta node else statMeta node
  match meta with
  | some m =>
    let flen := m.len
    let perms := env.permString m.mode
    let otherdev := decide (m.dev ≠ st.dev)
    let ts := match m.mtime with
      | some t => env.formatTime t
      | none => "?"
    let userRes := cacheLookup st.users env.getUserByUid m.uid
    match renderName userRes.1 with
    | none => none
    | some user =>
      let groupRes := cacheLookup st.groups env.getGroupByGid m.gid
      match renderName groupRes.1 with
      | none => none
      | some group =>
        let st1 := { st with users := userRes.2, groups := groupRes.2 }
        finishReport cfg st1 node fname perms flen (ownerField user group) ts otherdev
  | none =>
    finishReport cfg st node fname "no meta" 0 [] "" false

/-! ### The level scanner (main.rs lines 70-132) -/

/-- Lines 120-123: `if path.is_dir() && !path.is_symlink() {
if path.metadata().unwrap().dev() == self.dev { dirs.push(buf); } }`.
`some pass` = the child is pushed iff `pass`; `none` = the `unwrap` panics
(provably unreachable: `is_dir` already requires the metadata to be `Ok`,
see `devCheck_isSome`). -/
def devCheck (dev : Nat) (node : FsNode) : Option Bool :=
  if isDirF node && !isSymlink node then
    match statMeta node with
    | some m => some (decide (m.dev = dev))
    | none => none
  else some false


/-- The `Ok` arm of `visit`'s loop body (lines 114-124): report the entry
and, when it is a non-symlink directory on the root's device, collect it.
`none` is a panic out of `report` or out of the device check's `unwrap`. -/
def okStep (cfg : Config) (env : Env) (st : ScanState) (depth : Nat)
    (dirpath : List String) (n : FsNode) :
    Option (ScanState × OutEvent × List (List String × FsNode)) :=
  match report cfg env st n with
  | none => none
  | some (st1, line) =>
    match devCheck st1.dev n with
    | none => none
    | some pass =>
      some (st1, .entry depth (dirpath ++ [nodeName n]) line,
        if pass then [(dirpath ++ [nodeName n], n)] else [])

/-- One iteration of `visit`'s `for res in walk` loop (lines 109-129): an
`Err` item prints an `err` line (and is never reported or collected); an
`Ok` entry goes through `okStep`. -/
def entryStep (cfg : Config) (env : Env) (st : ScanState) (depth : Nat)
    (dirpath : List String) (e : FsNode) :
    Option (ScanState × OutEvent × List (List String × FsNode)) :=
  match e with
  | .errItem msg => some (st, .errLine msg, [])
  | n => okStep cfg env st depth dirpath n

/-- The whole `for res in walk` loop of `visit`: fold `entryStep` over the
items the `WalkDir` yields, accumulating output events and the collected
subdirectory list. -/
def visitEntries (cfg : Config) (env : Env) (st : ScanState) (depth : Nat)
    (dirpath : List String) :
    List FsNode → Option (ScanState × List OutEvent × List (List String × FsNode))
  | [] => some (st, [], [])
  | e :: rest =>
    match entryStep cfg env st depth dirpath e with
    | none => none
    | some (st1, ev, cs) =>
      match visitEntries cfg env st1 depth dirpath rest with
      | none => none
      | some (st2, evs, col) => some (st2, ev :: evs, cs ++ col)

theorem nodeSize_pos (n : FsNode) : 1 ≤ nodeSize n := by
  cases n <;> simp [nodeSize]

/-- Anything `okStep` collects is the entry it was given. -/
theorem okStep_col (cfg : Config) (env : Env) (st : ScanState) (depth : Nat)
    (dirpath : List String) (n : FsNode) (st1 : ScanState) (ev : OutEvent)
    (cs : List (List String × FsNode))
    (h : okStep cfg env st depth dirpath n = some (st1, ev, cs)) :
    cs = [] ∨ cs = [(dirpath ++ [nodeName n], n)] := by
  unfold okStep at h
  split at h
  · exact absurd h (by simp)
  · split at h
    · exact absurd h (by simp)
    · simp at h
      rcases h with ⟨h1, h2, h3⟩
      split at h3 <;> simp [← h3]

/-- Anything `entryStep` collects is the entry it was given. -/
theorem entryStep_col (cfg : Config) (env : Env) (st : ScanState) (depth : Nat)
    (dirpath : List String) (e : FsNode) (st1 : ScanState) (ev : OutEvent)
    (cs : List (List String × FsNode))
    (h : entryStep cfg env st depth dirpath e = some (st1, ev, cs)) :
    cs = [] ∨ cs = [(dirpath ++ [nodeName e], e)] := by
  cases e with
  | errItem msg =>
    simp [entryStep] at h
    simp [h.2.2]
  | file nm m c rf => exact okStep_col cfg env st depth dirpath _ st1 ev cs h
  | dir nm m es => exact okStep_col cfg env st depth dirpath _ st1 ev cs h
  | symlink nm m t d => exact okStep_col cfg env st depth dirpath _ st1 ev cs h
  | other nm m => exact okStep_col cfg env st depth dirpath _ st1 ev cs h

/-- The collected subdirectory list of a level is built from the visited
entries, so its total size is bounded by theirs (termination of
`scan`/`visit`). -/
theorem visitEntries_col_size (cfg : Config) (env : Env) (st : ScanState)
    (depth : Nat) (dirpath : List String) (es : List FsNode)
    (st2 : ScanState) (evs : List OutEvent) (col : List (List String × FsNode))
    (h : visitEntries cfg env st depth dirpath es = some (st2, evs, col)) :
    entriesSize (col.map Prod.snd) ≤ entriesSize es := by
  induction es generalizing st st2 evs col with
  | nil =>
    simp [visitEntries] at h
    simp [h.2.2, entriesSize]
  | cons e rest ih =>
    simp only [visitEntries] at h
    cases hstep : entryStep cfg env st depth dirpath e with
    | none => simp [hstep] at h
    | some p =>
      obtain ⟨st1, ev, cs⟩ := p
      simp only [hstep] at h
      cases hrec : visitEntries cfg env st1 depth dirpath rest with
      | none => simp [hrec] at h
      | some r =>
        obtain ⟨st3, evs3, col3⟩ := r
        simp only [hrec, Option.some.injEq, Prod.mk.injEq] at h
        rcases h with ⟨h1, h2, h3⟩
        have hih := ih _ _ _ _ hrec
        rcases entryStep_col cfg env st depth dirpath e st1 ev cs hstep with hc | hc <;>
          subst hc <;> simp [← h3, entriesSize] at hih ⊢ <;> omega

theorem entriesOf_size (n : FsNode) : entriesSize (entriesOf n) < nodeSize n := by
  cases n <;> simp [entriesOf, entriesSize, nodeSize]

/-- Lines 72-90: the per-directory preamble of `scan`'s loop body.  At depth 0
the directory is a new root: record its device id (`metadata().unwrap()`
panics -- `none` -- when the metadata cannot be read), reset the byte counter,
print the separator and the `(root)` header.  At depth > 0: print a blank
line, remember the directory in `parent`, and print the root-relative header
when `strip_prefix` succeeds. -/
def scanHeader (st : ScanState) (depth : Nat) (dpath : List String)
    (dnode : FsNode) : Option (ScanState × List OutEvent) :=
  if depth = 0 then
    match statMeta dnode with
    | some m =>
      some ({ st with root := dpath, dev := m.dev, count := 0 },
        [.sep, .rootHeader dpath])
    | none => none
  else
    some ({ st with parent := dpath },
      .blank :: (if st.root.isPrefixOf dpath then
        [.dirHeader (dpath.drop st.root.length)] else []))

mutual

/-- `Scanner::scan` (lines 70-103): for each directory of one level, print its
header (fatal metadata `unwrap` for a depth-0 root), visit its children
(which recurses into depth + 1 before the loop moves on), and at depth 0
print the root's byte total after its whole traversal. -/
def scan (cfg : Config) (env : Env) (st : ScanState) (depth : Nat) :
    List (List String × FsNode) → Option (ScanState × List OutEvent)
  | [] => some (st, [])
  | (dpath, dnode) :: rest =>
    match scanHeader st depth dpath dnode with
    | none => none
    | some (st1, hdr) =>
      match visit cfg env st1 depth dpath dnode with
      | none => none
      | some (st2, evs) =>
        match scan cfg env st2 depth rest with
        | none => none
        | some (st3, evs2) =>
          some (st3,
            hdr ++ evs ++ (if depth = 0 then [.total st2.count] else []) ++ evs2)
termination_by dirs => (entriesSize (dirs.map Prod.snd), 1)
decreasing_by
  · simp [Prod.lex_def, entriesSize]
    omega
  · simp [Prod.lex_def, entriesSize]
    have := nodeSize_pos dnode
    omega

/-- `Scanner::visit` (lines 106-132): run the walk loop over the directory's
children, then recursively `scan` the collected subdirectories at depth + 1. -/
def visit (cfg : Config) (env : Env) (st : ScanState) (depth : Nat)
    (dpath : List String) (dnode : FsNode) : Option (ScanState × List OutEvent) :=
  match h : visitEntries cfg env st depth dpath (entriesOf dnode) with
  | none => none
  | some (st1, evs, col) =>
    match scan cfg env st1 (depth + 1) col with
    | none => none
    | some (st2, evs2) => some (st2, evs ++ evs2)
termination_by (nodeSize dnode, 0)
decreasing_by
  simp [Prod.lex_def]
  have h1 := visitEntries_col_size cfg env st depth dpath (entriesOf dnode) st1 evs col h
  have h2 := entriesOf_size dnode
  omega

end

/-- `main` (lines 264-274) after the CLI layer: run the scanner from the
initial state at depth 0 over the given root paths. -/
def runScan (cfg : Config) (env : Env) (roots : List (List String × FsNode)) :
    Option (ScanState × List OutEvent) :=
  scan cfg env initState 0 roots

/-! ### Specification-side projections and sums -/

/-- The depth tag of an entry event (ghost data: the `visit` depth that
reported it; children of a depth-`d` directory carry tag `d`). -/
def evDepth : OutEvent → Option Nat
  | .entry d _ _ => some d
  | _ => none

/-- The `total bytes:` values printed, in order. -/
def totalsOf (evs : List OutEvent) : List Nat :=
  evs.filterMap fun ev =>
    match ev with
    | .total c => some c
    | _ => none

/-- Whether a tag sequence is weakly increasing: the breadth-first claim
"all entries at one depth are reported before any entry at depth + 1"
says exactly that the sequence of entry depth tags never decreases. -/
def tagsMonotone : List Nat → Bool
  | [] => true
  | [_] => true
  | x :: y :: r => decide (x ≤ y) && tagsMonotone (y :: r)

/-- The bytes one reported entry adds to the running counter: the reported
length of a live symlink or of a regular file with readable metadata
(lines 219 and 231); directories, `other` entries and metadata failures add
nothing. -/
def entryBytes : FsNode → Nat
  | .symlink _ (some m) _ _ => m.len
  | .file _ (some m) _ _ => m.len
  | _ => 0

/-- Sum of `entryBytes` over one directory's yielded items. -/
def listBytes : List FsNode → Nat
  | [] => 0
  | e :: r => entryBytes e + listBytes r

/-- Whether the traversal collects an entry for the next depth: a non-symlink
directory whose device id equals the root's. -/
def collectsB (dev : Nat) (e : FsNode) : Bool :=
  devCheck dev e == some true

mutual

/-- Spec-side sum: the bytes of every symlink and regular file transitively
reported under a collected directory, after mount isolation. -/
def specNodeBytes (dev : Nat) : FsNode → Nat
  | .dir _ _ es => specEntriesBytes dev es
  | _ => 0

/-- Spec-side sum over one directory's items: each item's own contribution
plus, when the traversal descends into it, its subtree's. -/
def specEntriesBytes (dev : Nat) : List FsNode → Nat
  | [] => 0
  | e :: r =>
    entryBytes e + (if collectsB dev e then specNodeBytes dev e else 0) +
      specEntriesBytes dev r

end

/-- Sum of `specNodeBytes` over a collected directory list. -/
def dirsBytes (dev : Nat) : List (List String × FsNode) → Nat
  | [] => 0
  | pn :: r => specNodeBytes dev pn.2 + dirsBytes dev r

/-- The subdirectories one level collects from an item list, with their
paths: the `collectsB`-filtered items (proved equal to what `visitEntries`
returns in `visitEntries_col_eq`). -/
def collectList (dev : Nat) (dirpath : List String) (es : List FsNode) :
    List (List String × FsNode) :=
  es.filterMap fun e =>
    if collectsB dev e then some (dirpath ++ [nodeName e], e) else none

/-- The device check of lines 120-123 never actually panics: `is_dir`
requires the very metadata the `unwrap` re-reads to be available. -/
theorem devCheck_isSome (dev : Nat) (n : FsNode) : (devCheck dev n).isSome := by
  cases n with
  | dir nm m es => cases m <;> simp [devCheck, isDirF, isSymlink, statMeta]
  | symlink nm m t d => cases m <;> simp [devCheck, isDirF, isSymlink, statMeta]
  | _ => simp [devCheck, isDirF, isSymlink, statMeta]

/-- `report` adds exactly the entry's byte contribution to the counter (with
`u64` wrap-around) and leaves the device id, root and parent unchanged. -/
theorem report_effects (cfg : Config) (env : Env) (st : ScanState) (node : FsNode)
    (st1 : ScanState) (line : EntryLine) (hc : st.count < 2 ^ 64)
    (h : report cfg env st node = some (st1, line)) :
    st1.count = (st.count + entryBytes node) % 2 ^ 64 ∧ st1.dev = st.dev ∧
      st1.root = st.root ∧ st1.parent = st.parent := by
  have hmod : st.count % 2 ^ 64 = st.count := Nat.mod_eq_of_lt hc
  cases node with
  | file nm m c rf =>
    cases m with
    | none =>
      simp [report, isSymlink, statMeta, finishReport, isDirF, isFileF] at h
      simp [← h.1, entryBytes] <;> omega
    | some mm =>
      simp only [report, isSymlink, statMeta] at h
      simp only [Bool.false_eq_true, if_false] at h
      cases hu : renderName (cacheLookup st.users env.getUserByUid mm.uid).1 with
      | none => rw [hu] at h; simp at h
      | some user =>
        rw [hu] at h
        cases hg : renderName (cacheLookup st.groups env.getGroupByGid mm.gid).1 with
        | none => rw [hg] at h; simp at h
        | some group =>
          rw [hg] at h
          simp only [finishReport, isSymlink, isDirF, isFileF] at h
          simp only [Bool.false_eq_true, if_false, Option.isSome_some, if_true] at h
          split at h <;>
            · simp at h
              simp [← h.1, entryBytes] <;> omega
  | dir nm m es =>
    cases m with
    | none =>
      simp [report, isSymlink, statMeta, finishReport, isDirF, isFileF] at h
      simp [← h.1, entryBytes] <;> omega
    | some mm =>
      simp only [report, isSymlink, statMeta] at h
      simp only [Bool.false_eq_true, if_false] at h
      cases hu : renderName (cacheLookup st.users env.getUserByUid mm.uid).1 with
      | none => rw [hu] at h; simp at h
      | some user =>
        rw [hu] at h
        cases hg : renderName (cacheLookup st.groups env.getGroupByGid mm.gid).1 with
        | none => rw [hg] at h; simp at h
        | some group =>
          rw [hg] at h
          simp only [finishReport, isSymlink, isDirF, isFileF] at h
          simp only [Bool.false_eq_true, if_false, Option.isSome_some, if_true] at h
          simp at h
          simp [← h.1, entryBytes] <;> omega
  | symlink nm m t d =>
    cases m with
    | none =>
      simp [report, isSymlink, statMeta, finishReport, isDirF, isFileF] at h
      simp [← h.1, entryBytes] <;> omega
    | some mm =>
      simp only [report, isSymlink, lstatMeta] at h
      simp only [Option.isSome_some, if_true] at h
      cases hu : renderName (cacheLookup st.users env.getUserByUid mm.uid).1 with
      | none => rw [hu] at h; simp at h
      | some user =>
        rw [hu] at h
        cases hg : renderName (cacheLookup st.groups env.getGroupByGid mm.gid).1 with
        | none => rw [hg] at h; simp at h
        | some group =>
          rw [hg] at h
          simp only [finishReport, isSymlink, Option.isSome_some, if_true] at h
          cases ht : readLinkTarget (FsNode.symlink nm (some mm) t d) with
          | none => rw [ht] at h; simp at h
          | some tgt =>
            rw [ht] at h
            simp at h
            simp [← h.1, entryBytes] <;> omega
  | other nm m =>
    cases m with
    | none =>
      simp [report, isSymlink, statMeta, finishReport, isDirF, isFileF] at h
      simp [← h.1, entryBytes] <;> omega
    | some mm =>
      simp only [report, isSymlink, statMeta] at h
      simp only [Bool.false_eq_true, if_false] at h
      cases hu : renderName (cacheLookup st.users env.getUserByUid mm.uid).1 with
      | none => rw [hu] at h; simp at h
      | some user =>
        rw [hu] at h
        cases hg : renderName (cacheLookup st.groups env.getGroupByGid mm.gid).1 with
        | none => rw [hg] at h; simp at h
        | some group =>
          rw [hg] at h
          simp only [finishReport, isSymlink, isDirF, isFileF] at h
          simp at h
          simp [← h.1, entryBytes] <;> omega
  | errItem msg =>
    simp [report, isSymlink, statMeta, lstatMeta, finishReport, isDirF, isFileF] at h
    simp [← h.1, entryBytes] <;> omega

/-- A small cons-unfolding for `collectList`. -/
theorem collectList_cons (dev : Nat) (dirpath : List String) (e : FsNode)
    (r : List FsNode) :
    collectList dev dirpath (e :: r) =
      (if collectsB dev e then [(dirpath ++ [nodeName e], e)] else []) ++
        collectList dev dirpath r := by
  by_cases hk : collectsB dev e = true <;> simp [collectList, List.filterMap_cons, hk]

/-- Effects of the `Ok` arm of the loop body: counter update, preserved
device/root, the emitted entry event (tagged with this level's depth and the
entry's path), and the collected pair exactly when the device check passes. -/
theorem okStep_effects (cfg : Config) (env : Env) (st : ScanState) (depth : Nat)
    (dirpath : List String) (n : FsNode) (st1 : ScanState) (ev : OutEvent)
    (cs : List (List String × FsNode)) (hc : st.count < 2 ^ 64)
    (h : okStep cfg env st depth dirpath n = some (st1, ev, cs)) :
    st1.count = (st.count + entryBytes n) % 2 ^ 64 ∧ st1.dev = st.dev ∧
      st1.root = st.root ∧
      (∃ line, ev = .entry depth (dirpath ++ [nodeName n]) line) ∧
      cs = (if collectsB st.dev n then [(dirpath ++ [nodeName n], n)] else []) := by
  unfold okStep at h
  cases hrep : report cfg env st n with
  | none => rw [hrep] at h; simp at h
  | some p =>
    obtain ⟨st2, line⟩ := p
    simp only [hrep] at h
    have he := report_effects cfg env st n st2 line hc hrep
    cases hdc : devCheck st2.dev n with
    | none => simp [hdc] at h
    | some pass =>
      simp only [hdc, Option.some.injEq, Prod.mk.injEq] at h
      rcases h with ⟨h1, h2, h3⟩
      have hdev : devCheck st.dev n = some pass := by rw [← he.2.1]; exact hdc
      have hcB : collectsB st.dev n = pass := by
        simp [collectsB, hdev]
      refine ⟨?_, ?_, ?_, ⟨line, h2.symm⟩, ?_⟩
      · rw [← h1]; exact he.1
      · rw [← h1]; exact he.2.1
      · rw [← h1]; exact he.2.2.1
      · rw [← h3, hcB]

/-- Effects of one loop iteration: an `Err` item only prints an `err` line,
an `Ok` entry behaves as `okStep_effects`. -/
theorem entryStep_effects (cfg : Config) (env : Env) (st : ScanState) (depth : Nat)
    (dirpath : List String) (e : FsNode) (st1 : ScanState) (ev : OutEvent)
    (cs : List (List String × FsNode)) (hc : st.count < 2 ^ 64)
    (h : entryStep cfg env st depth dirpath e = some (st1, ev, cs)) :
    st1.count = (st.count + entryBytes e) % 2 ^ 64 ∧ st1.dev = st.dev ∧
      st1.root = st.root ∧
      ((∃ m, ev = .errLine m) ∨ (∃ line, ev = .entry depth (dirpath ++ [nodeName e]) line)) ∧
      cs = (if collectsB st.dev e then [(dirpath ++ [nodeName e], e)] else []) := by
  cases e with
  | errItem msg =>
    simp [entryStep] at h
    have hcB : collectsB st.dev (FsNode.errItem msg) = false := by
      simp [collectsB, devCheck, isDirF, isSymlink]
    rcases h with ⟨h1, h2, h3⟩
    refine ⟨?_, ?_, ?_, Or.inl ⟨msg, h2.symm⟩, ?_⟩ <;>
      simp [← h1, entryBytes, hcB, ← h3] <;> omega
  | file nm m c rf =>
    have := okStep_effects cfg env st depth dirpath _ st1 ev cs hc h
    tauto
  | dir nm m es =>
    have := okStep_effects cfg env st depth dirpath _ st1 ev cs hc h
    tauto
  | symlink nm m t d =>
    have := okStep_effects cfg env st depth dirpath _ st1 ev cs hc h
    tauto
  | other nm m =>
    have := okStep_effects cfg env st depth dirpath _ st1 ev cs hc h
    tauto

/-- Effects of a whole level's loop: total counter update (`u64`-wrapped),
preserved device/root, the collected list is exactly the `collectsB` filter
of the items, and every printed event is an `err` line or an entry line
tagged with this level's depth. -/
theorem visitEntries_effects (cfg : Config) (env : Env) (st : ScanState)
    (depth : Nat) (dirpath : List String) (es : List FsNode) (st2 : ScanState)
    (evs : List OutEvent) (col : List (List String × FsNode))
    (hc : st.count < 2 ^ 64)
    (h : visitEntries cfg env st depth dirpath es = some (st2, evs, col)) :
    st2.count = (st.count + listBytes es) % 2 ^ 64 ∧ st2.dev = st.dev ∧
      st2.root = st.root ∧ col = collectList st.dev dirpath es ∧
      (∀ ev ∈ evs, (∃ m, ev = .errLine m) ∨ (∃ p l, ev = .entry depth p l)) := by
  induction es generalizing st st2 evs col with
  | nil =>
    simp only [visitEntries, Option.some.injEq, Prod.mk.injEq] at h
    rcases h with ⟨h1, h2, h3⟩
    subst h1
    refine ⟨?_, rfl, rfl, ?_, ?_⟩
    · simp [listBytes]
      omega
    · simp [← h3, collectList]
    · intro ev hev
      rw [← h2] at hev
      simp at hev
  | cons e rest ih =>
    simp only [visitEntries] at h
    cases hstep : entryStep cfg env st depth dirpath e with
    | none => simp [hstep] at h
    | some p =>
      obtain ⟨st1, ev, cs⟩ := p
      simp only [hstep] at h
      cases hrec : visitEntries cfg env st1 depth dirpath rest with
      | none => simp [hrec] at h
      | some r =>
        obtain ⟨st3, evs3, col3⟩ := r
        simp only [hrec, Option.some.injEq, Prod.mk.injEq] at h
        rcases h with ⟨h1, h2, h3⟩
        have hse := entryStep_effects cfg env st depth dirpath e st1 ev cs hc hstep
        have hc1 : st1.count < 2 ^ 64 := by
          rw [hse.1]; exact Nat.mod_lt _ (by norm_num)
        have hih := ih st1 st3 evs3 col3 hc1 hrec
        refine ⟨?_, ?_, ?_, ?_, ?_⟩
        · rw [← h1, hih.1, hse.1]
          simp [listBytes]
          omega
        · rw [← h1, hih.2.1, hse.2.1]
        · rw [← h1, hih.2.2.1, hse.2.2.1]
        · rw [← h3, collectList_cons, hse.2.2.2.2, hih.2.2.2.1, hse.2.1]
        · intro ev2 hev2
          rw [← h2] at hev2
          rcases List.mem_cons.mp hev2 with hl | hl
          · subst hl
            rcases hse.2.2.2.1 with hk | ⟨line, hk⟩
            · exact Or.inl hk
            · exact Or.inr ⟨_, _, hk⟩
          · exact hih.2.2.2.2 ev2 hl

/-- The event printed for an `Ok` entry is an entry line tagged with the
current depth and the entry's path. -/
theorem okStep_event (cfg : Config) (env : Env) (st : ScanState) (depth : Nat)
    (dirpath : List String) (n : FsNode) (st1 : ScanState) (ev : OutEvent)
    (cs : List (List String × FsNode))
    (h : okStep cfg env st depth dirpath n = some (st1, ev, cs)) :
    ∃ line, ev = .entry depth (dirpath ++ [nodeName n]) line := by
  unfold okStep at h
  cases hrep : report cfg env st n with
  | none => rw [hrep] at h; simp at h
  | some p =>
    obtain ⟨stx, line⟩ := p
    simp only [hrep] at h
    cases hdc : devCheck stx.dev n with
    | none => simp [hdc] at h
    | some pass =>
      simp only [hdc, Option.some.injEq, Prod.mk.injEq] at h
      exact ⟨line, h.2.1.symm⟩

/-- The event of one loop iteration is an `err` line or a depth-tagged
entry line. -/
theorem entryStep_event (cfg : Config) (env : Env) (st : ScanState) (depth : Nat)
    (dirpath : List String) (e : FsNode) (st1 : ScanState) (ev : OutEvent)
    (cs : List (List String × FsNode))
    (h : entryStep cfg env st depth dirpath e = some (st1, ev, cs)) :
    (∃ m, ev = .errLine m) ∨ (∃ p l, ev = .entry depth p l) := by
  cases e with
  | errItem msg =>
    simp [entryStep] at h
    exact Or.inl ⟨msg, h.2.1.symm⟩
  | file nm m c rf =>
    rcases okStep_event cfg env st depth dirpath _ st1 ev cs h with ⟨l, hl⟩
    exact Or.inr ⟨_, l, hl⟩
  | dir nm m es =>
    rcases okStep_event cfg env st depth dirpath _ st1 ev cs h with ⟨l, hl⟩
    exact Or.inr ⟨_, l, hl⟩
  | symlink nm m t d =>
    rcases okStep_event cfg env st depth dirpath _ st1 ev cs h with ⟨l, hl⟩
    exact Or.inr ⟨_, l, hl⟩
  | other nm m =>
    rcases okStep_event cfg env st depth dirpath _ st1 ev cs h with ⟨l, hl⟩
    exact Or.inr ⟨_, l, hl⟩

/-- Every event a level's loop prints is an `err` line or an entry line
tagged with the level's depth (no headers, totals or separators). -/
theorem visitEntries_events (cfg : Config) (env : Env) (st : ScanState)
    (depth : Nat) (dirpath : List String) (es : List FsNode) (st2 : ScanState)
    (evs : List OutEvent) (col : List (List String × FsNode))
    (h : visitEntries cfg env st depth dirpath es = some (st2, evs, col)) :
    ∀ ev ∈ evs, (∃ m, ev = .errLine m) ∨ (∃ p l, ev = .entry depth p l) := by
  induction es generalizing st st2 evs col with
  | nil =>
    simp only [visitEntries, Option.some.injEq, Prod.mk.injEq] at h
    intro ev hev
    rw [← h.2.1] at hev
    simp at hev
  | cons e rest ih =>
    simp only [visitEntries] at h
    cases hstep : entryStep cfg env st depth dirpath e with
    | none => simp [hstep] at h
    | some p =>
      obtain ⟨st1, ev, cs⟩ := p
      simp only [hstep] at h
      cases hrec : visitEntries cfg env st1 depth dirpath rest with
      | none => simp [hrec] at h
      | some r =>
        obtain ⟨st3, evs3, col3⟩ := r
        simp only [hrec, Option.some.injEq, Prod.mk.injEq] at h
        intro ev2 hev2
        rw [← h.2.1] at hev2
        rcases List.mem_cons.mp hev2 with hl | hl
        · rw [hl]
          exact entryStep_event cfg env st depth dirpath e st1 ev cs hstep
        · exact ih st1 st3 evs3 col3 hrec ev2 hl

/-- Header events contain no entry lines and no totals. -/
theorem scanHeader_events (st : ScanState) (depth : Nat) (dpath : List String)
    (dnode : FsNode) (st1 : ScanState) (hdr : List OutEvent)
    (h : scanHeader st depth dpath dnode = some (st1, hdr)) :
    ∀ ev ∈ hdr, (∀ d p l, ev ≠ .entry d p l) ∧ (∀ c, ev ≠ .total c) := by
  unfold scanHeader at h
  by_cases hd : depth = 0
  · simp only [hd, if_true] at h
    cases hm : statMeta dnode with
    | none => rw [hm] at h; simp at h
    | some m =>
      rw [hm] at h
      simp only [Option.some.injEq, Prod.mk.injEq] at h
      intro ev hev
      rw [← h.2] at hev
      simp at hev
      rcases hev with rfl | rfl <;> simp
  · simp only [hd, if_false, Option.some.injEq, Prod.mk.injEq] at h
    intro ev hev
    rw [← h.2] at hev
    rcases List.mem_cons.mp hev with rfl | hev
    · simp
    · by_cases hp : st.root.isPrefixOf dpath <;> simp [hp] at hev
      subst hev
      simp

/-- At depth ≥ 1 the header step only records `parent` and prints headers:
counter, device and root are unchanged. -/
theorem scanHeader_pos (st : ScanState) (depth : Nat) (dpath : List String)
    (dnode : FsNode) (st1 : ScanState) (hdr : List OutEvent) (hd : 1 ≤ depth)
    (h : scanHeader st depth dpath dnode = some (st1, hdr)) :
    st1.count = st.count ∧ st1.dev = st.dev ∧ st1.root = st.root := by
  unfold scanHeader at h
  have hz : ¬(depth = 0) := by omega
  simp only [hz, if_false, Option.some.injEq, Prod.mk.injEq] at h
  rw [← h.1]
  exact ⟨rfl, rfl, rfl⟩

/-- `totalsOf` distributes over append. -/
theorem totalsOf_append (a b : List OutEvent) :
    totalsOf (a ++ b) = totalsOf a ++ totalsOf b := by
  simp [totalsOf, List.filterMap_append]

/-- A list without total events yields no totals. -/
theorem totalsOf_eq_nil (evs : List OutEvent)
    (h : ∀ ev ∈ evs, ∀ c, ev ≠ OutEvent.total c) : totalsOf evs = [] := by
  induction evs with
  | nil => simp [totalsOf]
  | cons ev r ih =>
    have h1 := h ev (by simp)
    have h2 : totalsOf r = [] := ih fun e he => h e (by simp [he])
    cases ev <;> simp_all [totalsOf, List.filterMap_cons]

/-- `specNodeBytes` through `entriesOf`. -/
theorem specNodeBytes_entries (dev : Nat) (n : FsNode) :
    specNodeBytes dev n = specEntriesBytes dev (entriesOf n) := by
  cases n <;> simp [specNodeBytes, specEntriesBytes, entriesOf]

/-- The spec-side subtree sum splits into this level's reported bytes plus
the sums of the collected subdirectories. -/
theorem specEntriesBytes_split (dev : Nat) (dirpath : List String)
    (es : List FsNode) :
    specEntriesBytes dev es =
      listBytes es + dirsBytes dev (collectList dev dirpath es) := by
  induction es with
  | nil => simp [specEntriesBytes, listBytes, collectList, dirsBytes]
  | cons e r ih =>
    by_cases hk : collectsB dev e = true <;>
      simp [specEntriesBytes, listBytes, collectList_cons, dirsBytes, hk, ih] <;>
      omega

/-- Inversion for `visit`: a successful visit is a successful walk loop
followed by a successful recursive `scan` at depth + 1, and its output is
their concatenation. -/
theorem visit_eq_some (cfg : Config) (env : Env) (st : ScanState) (depth : Nat)
    (dpath : List String) (dnode : FsNode) (st2 : ScanState) (evs : List OutEvent)
    (h : visit cfg env st depth dpath dnode = some (st2, evs)) :
    ∃ st1 evsE col evsS,
      visitEntries cfg env st depth dpath (entriesOf dnode) = some (st1, evsE, col) ∧
      scan cfg env st1 (depth + 1) col = some (st2, evsS) ∧ evs = evsE ++ evsS := by
  simp only [visit] at h
  split at h
  · exact absurd h (by simp)
  · rename_i st1 evsE col heq
    split at h
    · exact absurd h (by simp)
    · rename_i st3 evsS hsc
      simp only [Option.some.injEq, Prod.mk.injEq] at h
      exact ⟨st1, evsE, col, evsS, heq, by rw [hsc, h.1], h.2.symm⟩

/-- Joint traversal invariant, by functional induction over `scan`/`visit`:
(i) every entry event a `scan` at depth `d` emits carries a tag ≥ `d`
(entries are only printed by this or deeper levels), and (ii) at depth ≥ 1,
the counter accumulates exactly the spec-side subtree bytes of the given
directories (mod `2 ^ 64`), device id and root are untouched, and no totals
are printed. -/
theorem scanVisit_main (cfg : Config) (env : Env) :
    ∀ (st : ScanState) (depth : Nat) (dirs : List (List String × FsNode)),
      ∀ st2 evs, scan cfg env st depth dirs = some (st2, evs) →
        (∀ ev ∈ evs, ∀ d p l, ev = OutEvent.entry d p l → depth ≤ d) ∧
        (1 ≤ depth → st.count < 2 ^ 64 →
          st2.count = (st.count + dirsBytes st.dev dirs) % 2 ^ 64 ∧
          st2.dev = st.dev ∧ st2.root = st.root ∧ totalsOf evs = []) := by
  refine scan.induct cfg env
    (fun st depth dirs => ∀ st2 evs, scan cfg env st depth dirs = some (st2, evs) →
      (∀ ev ∈ evs, ∀ d p l, ev = OutEvent.entry d p l → depth ≤ d) ∧
      (1 ≤ depth → st.count < 2 ^ 64 →
        st2.count = (st.count + dirsBytes st.dev dirs) % 2 ^ 64 ∧
        st2.dev = st.dev ∧ st2.root = st.root ∧ totalsOf evs = []))
    (fun st depth dpath dnode => ∀ st2 evs,
      visit cfg env st depth dpath dnode = some (st2, evs) →
      (∀ ev ∈ evs, ∀ d p l, ev = OutEvent.entry d p l → depth ≤ d) ∧
      (st.count < 2 ^ 64 →
        st2.count = (st.count + specNodeBytes st.dev dnode) % 2 ^ 64 ∧
        st2.dev = st.dev ∧ st2.root = st.root ∧ totalsOf evs = []))
    ?_ ?_ ?_ ?_ ?_ ?_ ?_ ?_
  · -- scan, nil
    intro st depth st2 evs h
    simp only [scan, Option.some.injEq, Prod.mk.injEq] at h
    refine ⟨?_, ?_⟩
    · intro ev hev
      rw [← h.2] at hev
      simp at hev
    · intro _ hc
      rw [← h.1, ← h.2]
      simp [dirsBytes, totalsOf]
      omega
  · -- scan, cons, header panics
    intro st depth dpath dnode rest hhd st2 evs h
    simp only [scan, hhd] at h
    exact absurd h (by simp)
  · -- scan, cons, visit panics
    intro st depth dpath dnode rest st3 hdr hhd hvis ih2 st2 evs h
    simp only [scan, hhd, hvis] at h
    exact absurd h (by simp)
  · -- scan, cons, recursive scan panics
    intro st depth dpath dnode rest st3 hdr hhd stv evsv hvis hrest ih2 ih1 st2 evs h
    simp only [scan, hhd, hvis, hrest] at h
    exact absurd h (by simp)
  · -- scan, cons, everything succeeds
    intro st depth dpath dnode rest st3 hdr hhd stv evsv hvis str evsr hrest ih2 ih1
      st2 evs h
    simp only [scan, hhd, hvis, hrest, Option.some.injEq, Prod.mk.injEq] at h
    have hhde := scanHeader_events st depth dpath dnode st3 hdr hhd
    have hv := ih2 stv evsv hvis
    have hr := ih1 str evsr hrest
    refine ⟨?_, ?_⟩
    · intro ev hev d p l hevl
      rw [← h.2] at hev
      simp only [List.append_assoc, List.mem_append] at hev
      rcases hev with hev | hev | hev | hev
      · exact absurd hevl ((hhde ev hev).1 d p l)
      · exact hv.1 ev hev d p l hevl
      · split at hev <;> simp at hev
        subst hev
        simp at hevl
      · exact hr.1 ev hev d p l hevl
    · intro hd hc
      have hp := scanHeader_pos st depth dpath dnode st3 hdr hd hhd
      have hvc := hv.2 (hp.1 ▸ hc)
      have hrc := hr.2 hd (by rw [hvc.1]; exact Nat.mod_lt _ (by norm_num))
      have hz : ¬(depth = 0) := by omega
      refine ⟨?_, ?_, ?_, ?_⟩
      · rw [← h.1, hrc.1, hvc.1, hp.1, hvc.2.1, hp.2.1, dirsBytes]
        simp [Nat.mod_add_mod]
        omega
      · rw [← h.1, hrc.2.1, hvc.2.1, hp.2.1]
      · rw [← h.1, hrc.2.2.1, hvc.2.2.1, hp.2.2]
      · rw [← h.2]
        simp only [hz, if_false, List.append_nil]
        rw [totalsOf_append, totalsOf_append]
        rw [hvc.2.2.2, hrc.2.2.2]
        simp [totalsOf_eq_nil hdr fun ev hev => (hhde ev hev).2]
  · -- visit, walk loop panics
    intro st depth dpath dnode hve st2 evs h
    rcases visit_eq_some cfg env st depth dpath dnode st2 evs h with
      ⟨st1, evsE, col, evsS, heq, hsc, hevs⟩
    rw [hve] at heq
    exact absurd heq (by simp)
  · -- visit, recursive scan panics
    intro st depth dpath dnode st1 evsE col hve hsc ih1 st2 evs h
    rcases visit_eq_some cfg env st depth dpath dnode st2 evs h with
      ⟨st1x, evsEx, colx, evsSx, heqx, hscx, hevsx⟩
    rw [hve] at heqx
    simp only [Option.some.injEq, Prod.mk.injEq] at heqx
    rw [← heqx.1, ← heqx.2.2] at hscx
    rw [hsc] at hscx
    exact absurd hscx (by simp)
  · -- visit, everything succeeds
    intro st depth dpath dnode st1 evsE col hve st3 evsS hsc ih1 st2 evs h
    rcases visit_eq_some cfg env st depth dpath dnode st2 evs h with
      ⟨st1x, evsEx, colx, evsSx, heqx, hscx, hevsx⟩
    rw [hve] at heqx
    simp only [Option.some.injEq, Prod.mk.injEq] at heqx
    obtain ⟨he1, he2, he3⟩ := heqx
    rw [← he1, ← he3] at hscx
    rw [hsc] at hscx
    simp only [Option.some.injEq, Prod.mk.injEq] at hscx
    -- h's output decomposition: evs = evsEx ++ evsSx with evsEx = evsE, evsSx = evsS
    rw [← he2, ← hscx.2] at hevsx
    have hst : st3 = st2 := hscx.1
    have hevsE := visitEntries_events cfg env st depth dpath (entriesOf dnode)
      st1 evsE col hve
    have hs := ih1 st3 evsS hsc
    refine ⟨?_, ?_⟩
    · intro ev hev d p l hevl
      rw [hevsx] at hev
      rcases List.mem_append.mp hev with hev | hev
      · rcases hevsE ev hev with ⟨m, hm⟩ | ⟨p2, l2, hm⟩
        · rw [hm] at hevl; exact absurd hevl (by simp)
        · rw [hm] at hevl
          simp at hevl
          omega
      · have := hs.1 ev hev d p l hevl
        omega
    · intro hc
      have hfx := visitEntries_effects cfg env st depth dpath (entriesOf dnode)
        st1 evsE col hc hve
      have hsc2 := hs.2 (by omega) (by rw [hfx.1]; exact Nat.mod_lt _ (by norm_num))
      refine ⟨?_, ?_, ?_, ?_⟩
      · rw [← hst, hsc2.1, hfx.1, hfx.2.1, hfx.2.2.2.1, specNodeBytes_entries,
          specEntriesBytes_split st.dev dpath (entriesOf dnode)]
        simp only [Nat.mod_add_mod]
        omega
      · rw [← hst, hsc2.2.1, hfx.2.1]
      · rw [← hst, hsc2.2.2.1, hfx.2.2.1]
      · rw [hevsx, totalsOf_append, hsc2.2.2.2]
        simp [totalsOf_eq_nil evsE fun ev hev => by
          rcases hevsE ev hev with ⟨m, hm⟩ | ⟨p2, l2, hm⟩ <;> simp [hm]]

/-- Effects of one `visit`: the counter gains exactly the spec-side subtree
bytes of the visited directory (mod `2 ^ 64`); device id and root are
unchanged; no `total` line is printed by a visit. -/
theorem visit_effects (cfg : Config) (env : Env) (st : ScanState) (depth : Nat)
    (dpath : List String) (dnode : FsNode) (st2 : ScanState) (evs : List OutEvent)
    (hc : st.count < 2 ^ 64)
    (h : visit cfg env st depth dpath dnode = some (st2, evs)) :
    st2.count = (st.count + specNodeBytes st.dev dnode) % 2 ^ 64 ∧
      st2.dev = st.dev ∧ st2.root = st.root ∧ totalsOf evs = [] := by
  rcases visit_eq_some cfg env st depth dpath dnode st2 evs h with
    ⟨st1, evsE, col, evsS, hve, hsc, hevs⟩
  have hfx := visitEntries_effects cfg env st depth dpath (entriesOf dnode)
    st1 evsE col hc hve
  have hevsE := visitEntries_events cfg env st depth dpath (entriesOf dnode)
    st1 evsE col hve
  have hs := (scanVisit_main cfg env st1 (depth + 1) col st2 evsS hsc).2 (by omega)
    (by rw [hfx.1]; exact Nat.mod_lt _ (by norm_num))
  refine ⟨?_, ?_, ?_, ?_⟩
  · rw [hs.1, hfx.1, hfx.2.1, hfx.2.2.2.1, specNodeBytes_entries,
      specEntriesBytes_split st.dev dpath (entriesOf dnode)]
    simp only [Nat.mod_add_mod]
    omega
  · rw [hs.2.1, hfx.2.1]
  · rw [hs.2.2.1, hfx.2.2.1]
  · rw [hevs, totalsOf_append, hs.2.2.2]
    simp [totalsOf_eq_nil evsE fun ev hev => by
      rcases hevsE ev hev with ⟨m, hm⟩ | ⟨p2, l2, hm⟩ <;> simp [hm]]

/-- The spec-side byte total of one root: the transitive sum over its subtree
(after mount isolation against its own device id). -/
def specRootBytes (n : FsNode) : Nat :=
  match statMeta n with
  | some m => specEntriesBytes m.dev (entriesOf n)
  | none => 0

/-- A depth-0 scan prints exactly one `total` per root, in order, and each
equals that root's spec-side subtree sum (mod `2 ^ 64`), independent of any
state accumulated before that root: the counter is reset per root. -/
theorem scan_zero_totals (cfg : Config) (env : Env) :
    ∀ (roots : List (List String × FsNode)) (st st2 : ScanState)
      (evs : List OutEvent), scan cfg env st 0 roots = some (st2, evs) →
      totalsOf evs = roots.map (fun pn => specRootBytes pn.2 % 2 ^ 64) := by
  intro roots
  induction roots with
  | nil =>
    intro st st2 evs h
    simp only [scan, Option.some.injEq, Prod.mk.injEq] at h
    rw [← h.2]
    simp [totalsOf]
  | cons pn rest ih =>
    obtain ⟨dpath, dnode⟩ := pn
    intro st st2 evs h
    simp only [scan] at h
    cases hm : statMeta dnode with
    | none => simp [scanHeader, hm] at h
    | some m =>
      have hhd : scanHeader st 0 dpath dnode =
          some ({ st with root := dpath, dev := m.dev, count := 0 },
            [.sep, .rootHeader dpath]) := by
        simp [scanHeader, hm]
      simp only [hhd] at h
      cases hvis : visit cfg env
          { st with root := dpath, dev := m.dev, count := 0 } 0 dpath dnode with
      | none => simp [hvis] at h
      | some pv =>
        obtain ⟨stv, evsv⟩ := pv
        simp only [hvis] at h
        cases hrest : scan cfg env stv 0 rest with
        | none => simp [hrest] at h
        | some pr =>
          obtain ⟨str, evsr⟩ := pr
          simp only [hrest, Option.some.injEq, Prod.mk.injEq] at h
          have hv := visit_effects cfg env _ 0 dpath dnode stv evsv (by simp) hvis
          rw [← h.2, totalsOf_append, totalsOf_append, totalsOf_append]
          rw [hv.2.2.2, ih stv str evsr hrest]
          have hcnt : stv.count = specNodeBytes m.dev dnode % 2 ^ 64 := by
            rw [hv.1]; simp
          simp [totalsOf, hcnt, specRootBytes, hm, specNodeBytes_entries]

/-! ### Support lemmas for the claim theorems -/

theorem leBytes_length (k x : Nat) : (leBytes k x).length = k := by
  induction k generalizing x with
  | zero => simp [leBytes]
  | succ n ih => simp [leBytes, ih]

/-- An MD5 digest is always 16 bytes. -/
theorem md5Bytes_length (msg : List Nat) : (md5Bytes msg).length = 16 := by
  unfold md5Bytes
  simp [leBytes_length]

theorem hexChars_length (bs : List Nat) : (hexChars bs).length = 2 * bs.length := by
  induction bs with
  | nil => simp [hexChars]
  | cons b r ih => simp [hexChars, ih]; omega

/-- A failing lstat means the following stat fails as well. -/
theorem statMeta_none (n : FsNode) (h : lstatMeta n = none) : statMeta n = none := by
  cases n <;> simp_all [lstatMeta, statMeta]

/-- `report` never changes the device id, root or parent (no counter bound
needed). -/
theorem report_dev (cfg : Config) (env : Env) (st : ScanState) (node : FsNode)
    (st1 : ScanState) (line : EntryLine)
    (h : report cfg env st node = some (st1, line)) :
    st1.dev = st.dev ∧ st1.root = st.root := by
  have hfin : ∀ st0 fname perms flen owner ts od,
      st0.dev = st.dev → st0.root = st.root →
      finishReport cfg st0 node fname perms flen owner ts od = some (st1, line) →
      st1.dev = st.dev ∧ st1.root = st.root := by
    intro st0 fname perms flen owner ts od hdev hroot hf
    unfold finishReport at hf
    split at hf
    · cases ht : readLinkTarget node with
      | none => rw [ht] at hf; simp at hf
      | some tgt =>
        rw [ht] at hf
        simp only [Option.some.injEq, Prod.mk.injEq] at hf
        rw [← hf.1]
        exact ⟨hdev, hroot⟩
    · split at hf
      · simp only [Option.some.injEq, Prod.mk.injEq] at hf
        rw [← hf.1]
        exact ⟨hdev, hroot⟩
      · split at hf
        · split at hf <;>
            · simp only [Option.some.injEq, Prod.mk.injEq] at hf
              rw [← hf.1]
              exact ⟨hdev, hroot⟩
        · simp only [Option.some.injEq, Prod.mk.injEq] at hf
          rw [← hf.1]
          exact ⟨hdev, hroot⟩
  simp only [report] at h
  cases hm : (if isSymlink node then lstatMeta node else statMeta node) with
  | none =>
    simp only [hm] at h
    exact hfin _ _ _ _ _ _ _ rfl rfl h
  | some m =>
    simp only [hm] at h
    cases hu : renderName (cacheLookup st.users env.getUserByUid m.uid).1 with
    | none => simp [hu] at h
    | some user =>
      simp only [hu] at h
      cases hg : renderName (cacheLookup st.groups env.getGroupByGid m.gid).1 with
      | none => simp [hg] at h
      | some group =>
        simp only [hg] at h
        exact hfin _ _ _ _ _ _ _ (by rfl) (by rfl) h

/-- The spec-side rendering rule for owner/group names, stated the way the
amended claim reads: byte-based truncation, `~` plus the last 7 bytes padded
to 7 character cells, names of at most 8 bytes unchanged. -/
def specRenderBytes (name : List Nat) : List Nat :=
  if name.length ≤ 8 then name
  else 126 :: padChars 7 (name.drop (name.length - 7))

/-- Whenever the code's renderer does not panic it computes exactly the
spec-side rule. -/
theorem renderName_spec (name r : List Nat) (h : renderName name = some r) :
    r = specRenderBytes name := by
  unfold renderName at h
  unfold specRenderBytes
  split at h
  · split at h
    · exact absurd h (by simp)
    · simp at h
      rename_i hg _
      simp only [if_neg (by omega : ¬name.length ≤ 8)]
      exact h.symm
  · rename_i hg
    simp at h
    simp only [if_pos (by omega : name.length ≤ 8)]
    exact h.symm

/-- Shared inversion: the hash field a reported regular file carries, by
eligibility. -/
theorem report_file_hash (cfg : Config) (env : Env) (st : ScanState) (nm : String)
    (m : Meta) (c : Option (List Nat)) (rf : Option Nat) (st2 : ScanState)
    (line : EntryLine)
    (h : report cfg env st (.file nm (some m) c rf) = some (st2, line)) :
    (hashEligible cfg m.len = true →
      line.hash = String.mk ((hexChars (md5Bytes (hashInput c rf))).take 8)) ∧
    (hashEligible cfg m.len = false → line.hash = dashes cfg.hashlen) := by
  simp only [report, isSymlink, statMeta] at h
  simp only [Bool.false_eq_true, if_false] at h
  cases hu : renderName (cacheLookup st.users env.getUserByUid m.uid).1 with
  | none => simp [hu] at h
  | some user =>
    simp only [hu] at h
    cases hg : renderName (cacheLookup st.groups env.getGroupByGid m.gid).1 with
    | none => simp [hg] at h
    | some group =>
      simp only [hg] at h
      simp only [finishReport, isSymlink, isDirF, isFileF] at h
      simp only [Bool.false_eq_true, if_false, Option.isSome_some, if_true] at h
      by_cases he : hashEligible cfg m.len = true
      · simp only [he, if_true, Option.some.injEq, Prod.mk.injEq] at h
        simp only [hashInput, fileContents, fileReadFail] at h
        refine ⟨fun _ => ?_, fun hf => by rw [he] at hf; exact absurd hf (by simp)⟩
        rw [← h.2]
        simp [hashInput]
      · have he2 : hashEligible cfg m.len = false := by
          cases hx : hashEligible cfg m.len
          · rfl
          · exact absurd hx he
        simp only [he2, Bool.false_eq_true, if_false, Option.some.injEq,
          Prod.mk.injEq] at h
        exact ⟨fun ht => absurd ht (by simp [he2]), fun _ => by rw [← h.2]⟩

/-! ### Concrete fixtures for witnesses and counterexamples -/

/-- An environment whose name oracles resolve nothing and whose formatters
are constant (their values are irrelevant to the claims). -/
def env0 : Env :=
  { getUserByUid := fun _ => none, getGroupByGid := fun _ => none,
    formatTime := fun _ => "2024-01-01T00:00", permString := fun _ => "-rw-r--r--" }

/-- The default configuration (`maxsumsize = 3`, `hashlen = 8`). -/
def cfgD : Config := { debug := false, maxsumsize := 3, hashlen := 8 }

/-- Default sizes but a non-default `hashlen` of 4. -/
def cfg4 : Config := { debug := false, maxsumsize := 3, hashlen := 4 }

/-- `maxsumsize = 0`: no file is ever hash-eligible. -/
def cfgZ : Config := { debug := false, maxsumsize := 0, hashlen := 8 }

/-- Metadata on device `dev` with length `len`. -/
def mkMeta (dev len : Nat) : Meta :=
  { dev := dev, len := len, mode := 33188, mtime := some 0, uid := 0, gid := 0 }

/-! ### C4 -/

/-- C4, counterexample: `report` on a symlink whose target cannot be read
panics (`read_link(path).unwrap()`, line 218) instead of degrading to a
placeholder — it fails outward and produces no line. -/
theorem C4_counterexample :
    report cfgD env0 initState (.symlink "s" (some (mkMeta 1 3)) none false) =
      none := by
  rfl

/-- C4, amended: `report(path)` produces exactly one formatted line and
updates session state, for every entry except the two panic paths the code
keeps: a live symlink whose target read fails (line 218's `unwrap`), and an
owner/group name longer than 8 bytes whose byte-slicing offset falls inside
a multi-byte character (lines 182/203).  Metadata failure and unresolvable
names degrade to placeholder fields as claimed. -/
theorem C4_report_total :
    ∀ (cfg : Config) (env : Env) (st : ScanState) (node : FsNode),
      (isSymlink node = true → readLinkTarget node ≠ none) →
      (∀ m, (if isSymlink node then lstatMeta node else statMeta node) = some m →
        renderName (effName st.users env.getUserByUid m.uid) ≠ none ∧
        renderName (effName st.groups env.getGroupByGid m.gid) ≠ none) →
      ∃ st2 line, report cfg env st node = some (st2, line) := by
  intro cfg env st node h1 h2
  have hfin : ∀ st0 fname perms flen owner ts od,
      ∃ st2 line, finishReport cfg st0 node fname perms flen owner ts od =
        some (st2, line) := by
    intro st0 fname perms flen owner ts od
    unfold finishReport
    by_cases hs : isSymlink node = true
    · cases ht : readLinkTarget node with
      | none => exact absurd ht (h1 hs)
      | some tgt => simp [hs, ht]
    · have hs2 : isSymlink node = false := by
        cases hx : isSymlink node
        · rfl
        · exact absurd hx hs
      by_cases hd : isDirF node = true
      · simp [hs2, hd]
      · have hd2 : isDirF node = false := by
          cases hx : isDirF node
          · rfl
          · exact absurd hx hd
        by_cases hf : isFileF node = true
        · by_cases he : hashEligible cfg flen = true
          · simp [hs2, hd2, hf, he]
          · have he2 : hashEligible cfg flen = false := by
              cases hx : hashEligible cfg flen
              · rfl
              · exact absurd hx he
            simp [hs2, hd2, hf, he2]
        · have hf2 : isFileF node = false := by
            cases hx : isFileF node
            · rfl
            · exact absurd hx hf
          simp [hs2, hd2, hf2]
  simp only [report]
  cases hm : (if isSymlink node then lstatMeta node else statMeta node) with
  | none => exact hfin _ _ _ _ _ _ _
  | some m =>
    obtain ⟨hu, hg⟩ := h2 m hm
    simp only [effName] at hu hg
    cases hru : renderName (cacheLookup st.users env.getUserByUid m.uid).1 with
    | none => exact absurd hru hu
    | some user =>
      simp only [hru]
      cases hrg : renderName (cacheLookup st.groups env.getGroupByGid m.gid).1 with
      | none => exact absurd hrg hg
      | some group =>
        simp only [hrg]
        exact hfin _ _ _ _ _ _ _

/-- C4, witness: a regular file with readable metadata is reported. -/
theorem C4_report_total_witness :
    ∃ st2 line, report cfgD env0 initState
      (.file "f" (some (mkMeta 1 0)) none none) = some (st2, line) :=
  C4_report_total cfgD env0 initState _ (by simp [isSymlink])
    (by
      intro m hm
      simp [isSymlink, statMeta] at hm
      constructor <;> rw [← hm] <;> decide)

/-! ### C3 -/

/-- C3, counterexample: a failure other than root metadata is fatal: scanning
a root whose child is a symlink with an unreadable target aborts the whole
invocation (the `read_link` `unwrap` panics), even though the root's metadata
was read successfully. -/
theorem C3_counterexample :
    scan cfgD env0 initState 0
      [(["r"], .dir "r" (some (mkMeta 1 0))
        [.symlink "s" (some (mkMeta 1 3)) none false])] = none := by
  simp [scan, visit, visitEntries, entryStep, okStep, report, scanHeader,
    finishReport, isSymlink, isDirF, isFileF, statMeta, lstatMeta, entriesOf,
    nodeName, readLinkTarget, cacheLookup, renderName, initState, env0, cfgD,
    mkMeta, utf8IsCont]

/-- C3, amended: root-metadata failure at depth 0 is fatal, and a metadata
failure on a non-root entry degrades that entry to placeholder fields, still
produces a line and is never collected (so the device-id check of lines
120-123 cannot abort on it) — but the failure set that can abort a scan also
contains the symlink-target and name-slicing panics recorded with C4. -/
theorem C3_meta_failure_recoverable :
    (∀ (cfg : Config) (env : Env) (st : ScanState) (node : FsNode),
      lstatMeta node = none →
      report cfg env st node = some (st,
        { perms := "no meta", flen := 0, owner := [], ts := "", hash := "",
          fname := nodeName node, extra := "" })) ∧
    (∀ (dev : Nat) (node : FsNode), lstatMeta node = none →
      devCheck dev node = some false) ∧
    (∀ (cfg : Config) (env : Env) (st : ScanState) (dpath : List String)
      (dnode : FsNode) (rest : List (List String × FsNode)),
      statMeta dnode = none → scan cfg env st 0 ((dpath, dnode) :: rest) = none) := by
  refine ⟨?_, ?_, ?_⟩
  · intro cfg env st node hm
    cases node <;>
      simp_all [report, finishReport, lstatMeta, statMeta, isSymlink, isDirF,
        isFileF, nodeName]
  · intro dev node hm
    cases node <;> simp_all [devCheck, isDirF, isSymlink, lstatMeta, statMeta]
  · intro cfg env st dpath dnode rest hm
    simp [scan, scanHeader, hm]

/-- C3, witness: a directory entry with unreadable metadata yields the
placeholder line, passes the device check as `false`, and a root with
unreadable metadata aborts. -/
theorem C3_meta_failure_witness :
    report cfgD env0 initState (.dir "d" none []) = some (initState,
      { perms := "no meta", flen := 0, owner := [], ts := "", hash := "",
        fname := "d", extra := "" }) ∧
    devCheck 7 (.dir "d" none []) = some false ∧
    scan cfgD env0 initState 0 [(["r"], .dir "r" none [])] = none :=
  ⟨C3_meta_failure_recoverable.1 cfgD env0 initState _ (by rfl),
   C3_meta_failure_recoverable.2.1 7 _ (by rfl),
   C3_meta_failure_recoverable.2.2 cfgD env0 initState ["r"] _ [] (by rfl)⟩

/-! ### C2 -/

set_option maxRecDepth 400000 in
/-- C2, counterexample: with `hashlen = 4` an eligible one-byte file still
displays 8 hex characters — line 248 hardcodes `[..8]`, so the computed hash
width does not follow `hashlen`.  (`93b885ad` is the 8-character prefix of
the MD5 of the single byte `0`.) -/
theorem C2_counterexample :
    cfg4.hashlen = 4 ∧
    (report cfg4 env0 initState (.file "f" (some (mkMeta 1 1)) (some [0]) none)).map
      (fun p => p.2.hash) = some "93b885ad" ∧
    "93b885ad" ≠ String.mk ((hexChars (md5Bytes [0])).take cfg4.hashlen) := by
  have h1 : hashLoop [] [0] 0 none = [0] := by simp [hashLoop]
  have h2 : String.mk ((hexChars (md5Bytes [0])).take 8) = "93b885ad" := by decide
  refine ⟨rfl, ?_, by decide⟩
  simp [report, finishReport, isSymlink, isDirF, isFileF, statMeta, lstatMeta,
    nodeName, cacheLookup, renderName, hashEligible, hashThreshold, hashInput,
    fileContents, fileReadFail, h1, h2, cfg4, env0, initState, mkMeta,
    utf8IsCont, utf8CharCount, padChars, ownerField, effName]

/-- C2, amended: for an eligible regular file the displayed hash is always
exactly the first 8 hex characters of the digest, regardless of the
configured `hashlen`; only the dash sentinel for ineligible files follows
`hashlen` (a run of exactly `hashlen` dashes). -/
theorem C2_hash_field :
    ∀ (cfg : Config) (env : Env) (st : ScanState) (nm : String) (m : Meta)
      (c : Option (List Nat)) (rf : Option Nat) (st2 : ScanState)
      (line : EntryLine),
      report cfg env st (.file nm (some m) c rf) = some (st2, line) →
      (hashEligible cfg m.len = true →
        line.hash = String.mk ((hexChars (md5Bytes (hashInput c rf))).take 8) ∧
        line.hash.length = 8) ∧
      (hashEligible cfg m.len = false →
        line.hash = dashes cfg.hashlen ∧ line.hash.length = cfg.hashlen) := by
  intro cfg env st nm m c rf st2 line h
  have hh := report_file_hash cfg env st nm m c rf st2 line h
  refine ⟨fun he => ⟨hh.1 he, ?_⟩, fun he => ⟨hh.2 he, ?_⟩⟩
  · rw [hh.1 he]
    simp [String.length, List.length_take, hexChars_length, md5Bytes_length]
  · rw [hh.2 he]
    simp [dashes, String.length]

/-- C2, witness: a 4-configured `hashlen` still yields an 8-character
computed hash for an eligible file, and a 4-dash sentinel for an empty one. -/
theorem C2_hash_field_witness :
    ∃ st2 line st3 line2,
      report cfg4 env0 initState (.file "f" (some (mkMeta 1 1)) (some [0]) none) =
        some (st2, line) ∧ line.hash.length = 8 ∧
      report cfg4 env0 initState (.file "g" (some (mkMeta 1 0)) none none) =
        some (st3, line2) ∧ line2.hash.length = 4 := by
  have h1 : hashLoop [] [0] 0 none = [0] := by simp [hashLoop]
  have he : (report cfg4 env0 initState
      (.file "f" (some (mkMeta 1 1)) (some [0]) none)).isSome = true := by
    simp [report, finishReport, isSymlink, isDirF, isFileF, statMeta, lstatMeta,
      nodeName, cacheLookup, renderName, hashEligible, hashThreshold, hashInput,
      fileContents, fileReadFail, h1, cfg4, env0, initState, mkMeta, utf8IsCont,
      utf8CharCount, padChars, ownerField]
  have hg : (report cfg4 env0 initState
      (.file "g" (some (mkMeta 1 0)) none none)).isSome = true := by
    simp [report, finishReport, isSymlink, isDirF, isFileF, statMeta, lstatMeta,
      nodeName, cacheLookup, renderName, hashEligible, hashThreshold, hashInput,
      fileContents, fileReadFail, cfg4, env0, initState, mkMeta, utf8IsCont,
      utf8CharCount, padChars, ownerField]
  obtain ⟨⟨st2, line⟩, h2⟩ := Option.isSome_iff_exists.mp he
  obtain ⟨⟨st3, line2⟩, h3⟩ := Option.isSome_iff_exists.mp hg
  refine ⟨st2, line, st3, line2, h2, ?_, h3, ?_⟩
  · exact ((C2_hash_field cfg4 env0 initState "f" (mkMeta 1 1) (some [0]) none
      st2 line h2).1 (by decide)).2
  · exact ((C2_hash_field cfg4 env0 initState "g" (mkMeta 1 0) none none
      st3 line2 h3).2 (by decide)).2

/-! ### C8 -/

/-- C8, confirmed: assuming the threshold product does not overflow `u64`, a
zero-length file or one at/above `maxsumsize * 1024 * 1024` bytes always
gets the dash sentinel (exactly the threshold is "too large"), and any file
strictly between 0 and the threshold gets a computed hash. -/
theorem C8_size_threshold :
    ∀ (cfg : Config) (env : Env) (st : ScanState) (nm : String) (m : Meta)
      (c : Option (List Nat)) (rf : Option Nat) (st2 : ScanState)
      (line : EntryLine),
      cfg.maxsumsize * 1024 * 1024 < 2 ^ 64 →
      report cfg env st (.file nm (some m) c rf) = some (st2, line) →
      ((m.len = 0 ∨ cfg.maxsumsize * 1024 * 1024 ≤ m.len) →
        line.hash = dashes cfg.hashlen) ∧
      (0 < m.len ∧ m.len < cfg.maxsumsize * 1024 * 1024 →
        line.hash = String.mk ((hexChars (md5Bytes (hashInput c rf))).take 8)) := by
  intro cfg env st nm m c rf st2 line hov h
  have hth : hashThreshold cfg = cfg.maxsumsize * 1024 * 1024 :=
    Nat.mod_eq_of_lt hov
  have hh := report_file_hash cfg env st nm m c rf st2 line h
  constructor
  · intro hcase
    refine hh.2 ?_
    simp [hashEligible, hth]
    omega
  · intro hcase
    refine hh.1 ?_
    simp [hashEligible, hth]
    omega

/-- C8, witness: with `maxsumsize = 1`, a file of exactly 1 MiB gets the
sentinel and a 1-byte file gets a computed hash. -/
theorem C8_size_threshold_witness :
    ∃ st2 line st3 line2,
      report (Config.mk false 1 8) env0 initState
        (.file "big" (some (mkMeta 1 1048576)) none none) = some (st2, line) ∧
      line.hash = dashes 8 ∧
      report (Config.mk false 1 8) env0 initState
        (.file "sm" (some (mkMeta 1 1)) (some [5]) none) = some (st3, line2) ∧
      line2.hash = String.mk ((hexChars (md5Bytes (hashInput (some [5]) none))).take 8) := by
  have h1 : hashLoop [] [5] 0 none = [5] := by simp [hashLoop]
  have hb : (report (Config.mk false 1 8) env0 initState
      (.file "big" (some (mkMeta 1 1048576)) none none)).isSome = true := by
    simp [report, finishReport, isSymlink, isDirF, isFileF, statMeta, lstatMeta,
      nodeName, cacheLookup, renderName, hashEligible, hashThreshold, hashInput,
      fileContents, fileReadFail, env0, initState, mkMeta]
  have hs : (report (Config.mk false 1 8) env0 initState
      (.file "sm" (some (mkMeta 1 1)) (some [5]) none)).isSome = true := by
    simp [report, finishReport, isSymlink, isDirF, isFileF, statMeta, lstatMeta,
      nodeName, cacheLookup, renderName, hashEligible, hashThreshold, hashInput,
      fileContents, fileReadFail, h1, env0, initState, mkMeta]
  obtain ⟨⟨st2, line⟩, h2⟩ := Option.isSome_iff_exists.mp hb
  obtain ⟨⟨st3, line2⟩, h3⟩ := Option.isSome_iff_exists.mp hs
  refine ⟨st2, line, st3, line2, h2, ?_, h3, ?_⟩
  · exact (C8_size_threshold _ env0 initState "big" (mkMeta 1 1048576) none none
      st2 line (by norm_num) h2).1 (by norm_num [mkMeta])
  · exact (C8_size_threshold _ env0 initState "sm" (mkMeta 1 1) (some [5]) none
      st3 line2 (by norm_num) h3).2 (by norm_num [mkMeta])

/-! ### C5 -/

/-- The chunk loop on a read failure at chunk index `idx + k` consumes
exactly the first `k` full chunks. -/
theorem hashLoop_readFail (k : Nat) :
    ∀ (acc bytes : List Nat) (idx : Nat),
      hashLoop acc bytes idx (some (idx + k)) = acc ++ bytes.take (k * 65536) := by
  induction k with
  | zero =>
    intro acc bytes idx
    rw [hashLoop]
    simp
  | succ n ih =>
    intro acc bytes idx
    rw [hashLoop]
    have hne : ¬((some (idx + (n + 1)) : Option Nat) = some idx) := by
      simp only [Option.some.injEq]
      omega
    rw [if_neg hne]
    by_cases hlen : (bytes.take 65536).length < 65536
    · rw [if_pos hlen]
      simp only [List.length_take] at hlen
      have hsh : bytes.length < 65536 := by omega
      have h65 : 65536 ≤ (n + 1) * 65536 := Nat.le_mul_of_pos_left _ (by omega)
      rw [List.take_of_length_le (by omega), List.take_of_length_le (by omega)]
    · rw [if_neg hlen]
      have hix : idx + (n + 1) = (idx + 1) + n := by omega
      rw [hix, ih]
      have hsplit : (n + 1) * 65536 = 65536 + n * 65536 := by ring
      rw [hsplit, List.take_add, ← List.append_assoc]

/-- C5, counterexample: a read failure during streaming does not degrade to
hashing nothing: for a 65537-byte file whose second chunk read fails, the
accumulator has already consumed the full first 64 KiB chunk, and the
reported hash is the digest prefix of those 65536 bytes, not of the empty
input. -/
theorem C5_counterexample :
    hashInput (some (List.replicate 65537 0)) (some 1) = List.replicate 65536 0 ∧
    (List.replicate 65536 (0 : Nat)).length = 65536 ∧
    (report cfgD env0 initState
        (.file "b" (some (mkMeta 1 65537)) (some (List.replicate 65537 0))
          (some 1))).map (fun p => p.2.hash) =
      some (String.mk ((hexChars (md5Bytes (List.replicate 65536 0))).take 8)) := by
  have h1 : hashInput (some (List.replicate 65537 0)) (some 1) =
      List.replicate 65536 0 := by
    simp only [hashInput]
    rw [show (some 1 : Option Nat) = some (0 + 1) by norm_num, hashLoop_readFail,
      List.nil_append, List.take_replicate]
    norm_num
  have hrep : ∀ bs : List Nat,
      (report cfgD env0 initState
        (.file "b" (some (mkMeta 1 65537)) (some bs) (some 1))).map
        (fun p => p.2.hash) =
      some (String.mk ((hexChars (md5Bytes (hashInput (some bs) (some 1)))).take 8)) := by
    intro bs
    simp [report, finishReport, isSymlink, isDirF, isFileF, statMeta, lstatMeta,
      nodeName, cacheLookup, renderName, hashEligible, hashThreshold,
      fileContents, fileReadFail, cfgD, env0, initState, mkMeta]
  refine ⟨h1, by simp only [List.length_replicate], ?_⟩
  rw [hrep (List.replicate 65537 0), h1]

set_option maxRecDepth 400000 in
/-- C5, amended: a failure to open the file hashes the empty input and the
entry is still reported, with the empty accumulator's digest prefix
`d41d8cd9`; a read failure at chunk index `k` silently degrades to hashing
exactly the first `k` full 64 KiB chunks (so only a failure on the very
first read hashes nothing); the entry is never skipped and the scan never
aborts on either failure. -/
theorem C5_hash_degradation :
    (∀ (cfg : Config) (env : Env) (st : ScanState) (nm : String) (m : Meta)
      (rf : Option Nat) (st2 : ScanState) (line : EntryLine),
      report cfg env st (.file nm (some m) none rf) = some (st2, line) →
      hashEligible cfg m.len = true → line.hash = "d41d8cd9") ∧
    (∀ (bytes : List Nat) (k : Nat),
      hashLoop [] bytes 0 (some k) = bytes.take (k * 65536)) := by
  constructor
  · intro cfg env st nm m rf st2 line h he
    have hh := (report_file_hash cfg env st nm m none rf st2 line h).1 he
    rw [hh]
    have : hashInput none rf = [] := by simp [hashInput]
    rw [this]
    decide
  · intro bytes k
    rw [show (some k : Option Nat) = some (0 + k) by norm_num, hashLoop_readFail]
    exact List.nil_append _

/-- C5, witness: an eligible file whose open fails is still reported with
the empty-input digest prefix, and a failure on the very first read hashes
nothing. -/
theorem C5_hash_degradation_witness :
    ∃ st2 line,
      report cfgD env0 initState (.file "o" (some (mkMeta 1 5)) none none) =
        some (st2, line) ∧ line.hash = "d41d8cd9" ∧
      hashLoop [] [1, 2, 3] 0 (some 0) = [] := by
  have ho : (report cfgD env0 initState
      (.file "o" (some (mkMeta 1 5)) none none)).isSome = true := by
    simp [report, finishReport, isSymlink, isDirF, isFileF, statMeta, lstatMeta,
      nodeName, cacheLookup, renderName, hashEligible, hashThreshold, hashInput,
      fileContents, fileReadFail, cfgD, env0, initState, mkMeta]
  obtain ⟨⟨st2, line⟩, h2⟩ := Option.isSome_iff_exists.mp ho
  refine ⟨st2, line, h2, ?_, ?_⟩
  · exact C5_hash_degradation.1 cfgD env0 initState "o" (mkMeta 1 5) none
      st2 line h2 (by decide)
  · have := C5_hash_degradation.2 [1, 2, 3] 0
    simpa using this

/-! ### C9 -/

/-- The type dispatch never touches the owner field: whatever `report`
computed for it is printed. -/
theorem finishReport_owner (cfg : Config) (st0 : ScanState) (node : FsNode)
    (fname perms : String) (flen : Nat) (owner : List Nat) (ts : String)
    (od : Bool) (st2 : ScanState) (line : EntryLine)
    (h : finishReport cfg st0 node fname perms flen owner ts od = some (st2, line)) :
    line.owner = owner := by
  unfold finishReport at h
  split at h
  · cases ht : readLinkTarget node with
    | none => rw [ht] at h; exact absurd h (by simp)
    | some tgt =>
      rw [ht] at h
      simp only [Option.some.injEq, Prod.mk.injEq] at h
      rw [← h.2]
  · split at h
    · simp only [Option.some.injEq, Prod.mk.injEq] at h
      rw [← h.2]
    · split at h
      · split at h <;>
          · simp only [Option.some.injEq, Prod.mk.injEq] at h
            rw [← h.2]
      · simp only [Option.some.injEq, Prod.mk.injEq] at h
        rw [← h.2]

/-- The bytes of the name used as the counterexample: seven `a`s followed by
the two-byte UTF-8 encoding of `é` — 8 characters, 9 bytes. -/
def nmA : List Nat := [97, 97, 97, 97, 97, 97, 97, 195, 169]

/-- A 5-character, 10-byte name of five `é`s: its last-7-bytes offset lands
inside a character. -/
def nmB : List Nat := [195, 169, 195, 169, 195, 169, 195, 169, 195, 169]

/-- C9, counterexample: the truncation rule is byte-based, not
character-based.  `nmA` has exactly 8 characters yet is rendered truncated
(`~aaaaaé` padded), and `nmB` has only 5 characters yet makes the renderer
panic on a mid-character slice — both contradict "a name of exactly 8 or
fewer characters is rendered unchanged". -/
theorem C9_counterexample :
    utf8CharCount nmA = 8 ∧
    renderName nmA = some [126, 97, 97, 97, 97, 97, 195, 169, 32] ∧
    renderName nmA ≠ some nmA ∧
    utf8CharCount nmB = 5 ∧
    renderName nmB = none := by
  decide

/-- C9, amended: for every resolved owner or group name, `report` renders
the owner column as two fixed 8-character-wide fields holding the byte-based
rule: a name of more than 8 bytes becomes `~` followed by its last 7 bytes
(padded to 7 character cells; the slice panics when the offset splits a
multi-byte character), and a name of at most 8 bytes is unchanged. -/
theorem C9_name_rendering :
    ∀ (cfg : Config) (env : Env) (st : ScanState) (node : FsNode) (m : Meta)
      (st2 : ScanState) (line : EntryLine),
      (if isSymlink node then lstatMeta node else statMeta node) = some m →
      report cfg env st node = some (st2, line) →
      line.owner =
        ownerField (specRenderBytes (effName st.users env.getUserByUid m.uid))
          (specRenderBytes (effName st.groups env.getGroupByGid m.gid)) := by
  intro cfg env st node m st2 line hm h
  simp only [report] at h
  simp only [hm] at h
  cases hu : renderName (cacheLookup st.users env.getUserByUid m.uid).1 with
  | none => simp [hu] at h
  | some user =>
    simp only [hu] at h
    cases hg : renderName (cacheLookup st.groups env.getGroupByGid m.gid).1 with
    | none => simp [hg] at h
    | some group =>
      simp only [hg] at h
      have ho := finishReport_owner cfg _ node _ _ _ _ _ _ st2 line h
      rw [ho, renderName_spec _ _ hu, renderName_spec _ _ hg]
      rfl

/-- C9, witness: a 9-byte resolved user name appears truncated inside the
owner column of an actual report. -/
theorem C9_name_rendering_witness :
    ∃ st2 line,
      report cfgD
        { getUserByUid := fun _ => some nmA, getGroupByGid := fun _ => none,
          formatTime := fun _ => "t", permString := fun _ => "p" }
        initState (.file "f" (some (mkMeta 1 0)) none none) = some (st2, line) ∧
      line.owner = ownerField (specRenderBytes nmA) (specRenderBytes [63]) := by
  have hs : (report cfgD
      { getUserByUid := fun _ => some nmA, getGroupByGid := fun _ => none,
        formatTime := fun _ => "t", permString := fun _ => "p" }
      initState (.file "f" (some (mkMeta 1 0)) none none)).isSome = true := by
    decide
  obtain ⟨⟨st2, line⟩, h2⟩ := Option.isSome_iff_exists.mp hs
  refine ⟨st2, line, h2, ?_⟩
  have := C9_name_rendering cfgD _ initState _ (mkMeta 1 0) st2 line
    (by simp [isSymlink, statMeta]) h2
  simpa [effName, cacheLookup, initState] using this

/-! ### C10 -/

/-- C10, confirmed: the hashing threshold is the unchecked `u64` product
`maxsumsize * 1024 * 1024`: exact for every `maxsumsize` below `2 ^ 44`; at
or above `2 ^ 44` the mathematical product reaches `2 ^ 64` (overflow —
wrapping in release builds, modelled here; a panic in debug builds), and at
exactly `2 ^ 44` the wrapped threshold is 0, silently making every file
ineligible for hashing. -/
theorem C10_threshold_overflow :
    ∀ cfg : Config,
      (cfg.maxsumsize < 2 ^ 44 →
        hashThreshold cfg = cfg.maxsumsize * 1024 * 1024) ∧
      (2 ^ 44 ≤ cfg.maxsumsize → 2 ^ 64 ≤ cfg.maxsumsize * 1024 * 1024) ∧
      (cfg.maxsumsize = 2 ^ 44 →
        hashThreshold cfg = 0 ∧ ∀ flen, hashEligible cfg flen = false) := by
  intro cfg
  refine ⟨?_, ?_, ?_⟩
  · intro hlt
    have h1 : cfg.maxsumsize ≤ 2 ^ 44 - 1 := by omega
    have h2 : cfg.maxsumsize * 1024 * 1024 < 2 ^ 64 := by
      calc cfg.maxsumsize * 1024 * 1024
          ≤ (2 ^ 44 - 1) * 1024 * 1024 :=
            Nat.mul_le_mul_right _ (Nat.mul_le_mul_right _ h1)
        _ < 2 ^ 64 := by norm_num
    exact Nat.mod_eq_of_lt h2
  · intro hge
    calc (2 : Nat) ^ 64 = 2 ^ 44 * 1024 * 1024 := by norm_num
      _ ≤ cfg.maxsumsize * 1024 * 1024 :=
          Nat.mul_le_mul_right _ (Nat.mul_le_mul_right _ hge)
  · intro heq
    have hz : hashThreshold cfg = 0 := by
      simp [hashThreshold, heq]
    exact ⟨hz, fun flen => by simp [hashEligible, hz]⟩

/-- C10, witness: the default `maxsumsize = 3` threshold is exact, while
`maxsumsize = 2 ^ 44` wraps to a zero threshold that disables hashing. -/
theorem C10_threshold_overflow_witness :
    hashThreshold cfgD = 3 * 1024 * 1024 ∧
    hashThreshold (Config.mk false (2 ^ 44) 8) = 0 ∧
    hashEligible (Config.mk false (2 ^ 44) 8) 1 = false := by
  refine ⟨?_, ?_, ?_⟩
  · have := (C10_threshold_overflow cfgD).1 (by norm_num [cfgD])
    simpa [cfgD] using this
  · exact ((C10_threshold_overflow (Config.mk false (2 ^ 44) 8)).2.2 rfl).1
  · exact ((C10_threshold_overflow (Config.mk false (2 ^ 44) 8)).2.2 rfl).2 1

/-! ### C1 -/

/-- A root with two subdirectories `a` (containing `c/f`) and `b`
(containing `g`): the minimal shape separating breadth-first from
depth-first order. -/
def fsC1 : FsNode :=
  .dir "r" (some (mkMeta 1 0))
    [.dir "a" (some (mkMeta 1 0))
      [.dir "c" (some (mkMeta 1 0)) [.file "f" (some (mkMeta 1 0)) none none]],
     .dir "b" (some (mkMeta 1 0)) [.file "g" (some (mkMeta 1 0)) none none]]

/-- C1, counterexample: the recursion into depth + 1 happens inside `visit`,
per directory, before `scan`'s loop reaches the next directory of the same
level — so traversal is depth-first across sibling directories.  Scanning
`fsC1` emits entries with depth tags `[0, 0, 1, 2, 1]` (tag `d` = reported
by the visit of a depth-`d` directory): the tag-2 entry `r/a/c/f` is
reported before the tag-1 entry `r/b/g`, violating "all entries at one
depth across all directories given in one call are reported before any
entry at depth + 1". -/
theorem C1_counterexample :
    (scan cfgZ env0 initState 0 [(["r"], fsC1)]).map
      (fun p => p.2.filterMap evDepth) = some [0, 0, 1, 2, 1] ∧
    tagsMonotone [0, 0, 1, 2, 1] = false := by
  refine ⟨?_, by rfl⟩
  simp [scan, visit, visitEntries, entryStep, okStep, report, scanHeader,
    devCheck, finishReport, cacheLookup, renderName, ownerField, padChars,
    utf8CharCount, utf8IsCont, isSymlink, isDirF, isFileF, statMeta, lstatMeta,
    entriesOf, nodeName, hashEligible, hashThreshold, dashes, fsC1, mkMeta,
    cfgZ, env0, initState, evDepth, readLinkTarget, fileContents, fileReadFail]

/-- C1, amended: within the visit of one directory at depth `d`, all of its
immediate children (the only entries tagged `d`, forming that directory's
contiguous block) are reported before any deeper entry produced by that
visit; across sibling directories of one call the order is depth-first, not
breadth-first. -/
theorem C1_depth_order :
    ∀ (cfg : Config) (env : Env) (st : ScanState) (depth : Nat)
      (dpath : List String) (dnode : FsNode) (st2 : ScanState)
      (evs : List OutEvent),
      visit cfg env st depth dpath dnode = some (st2, evs) →
      ∃ evsA evsB, evs = evsA ++ evsB ∧
        (∀ ev ∈ evsA, (∃ m, ev = .errLine m) ∨ (∃ p l, ev = .entry depth p l)) ∧
        (∀ ev ∈ evsB, ∀ d p l, ev = .entry d p l → depth + 1 ≤ d) := by
  intro cfg env st depth dpath dnode st2 evs h
  rcases visit_eq_some cfg env st depth dpath dnode st2 evs h with
    ⟨st1, evsE, col, evsS, hve, hsc, hevs⟩
  exact ⟨evsE, evsS, hevs,
    visitEntries_events cfg env st depth dpath (entriesOf dnode) st1 evsE col hve,
    fun ev hev d p l hl =>
      (scanVisit_main cfg env st1 (depth + 1) col st2 evsS hsc).1 ev hev d p l hl⟩

/-- C1, witness: the split exists for a concrete visit. -/
theorem C1_depth_order_witness :
    ∃ st2 evs evsA evsB,
      visit cfgZ env0 initState 0 ["a"]
        (.dir "a" (some (mkMeta 0 0)) [.file "f" (some (mkMeta 0 0)) none none]) =
        some (st2, evs) ∧
      evs = evsA ++ evsB ∧
      (∀ ev ∈ evsA, (∃ m, ev = .errLine m) ∨ (∃ p l, ev = .entry 0 p l)) ∧
      (∀ ev ∈ evsB, ∀ d p l, ev = .entry d p l → 1 ≤ d) := by
  have hs : (visit cfgZ env0 initState 0 ["a"]
      (.dir "a" (some (mkMeta 0 0))
        [.file "f" (some (mkMeta 0 0)) none none])).isSome = true := by
    simp [scan, visit, visitEntries, entryStep, okStep, report, scanHeader,
      devCheck, finishReport, cacheLookup, renderName, ownerField, padChars,
      utf8CharCount, utf8IsCont, isSymlink, isDirF, isFileF, statMeta, lstatMeta,
      entriesOf, nodeName, hashEligible, hashThreshold, dashes, mkMeta, cfgZ,
      env0, initState, readLinkTarget, fileContents, fileReadFail]
  obtain ⟨⟨st2, evs⟩, h⟩ := Option.isSome_iff_exists.mp hs
  obtain ⟨evsA, evsB, h1, h2, h3⟩ :=
    C1_depth_order cfgZ env0 initState 0 ["a"] _ st2 evs h
  exact ⟨st2, evs, evsA, evsB, h, h1, h2, h3⟩

/-! ### C6 -/

/-- C6, confirmed: for every root in one invocation, the printed trailer
equals the spec-side sum of reported lengths of every symlink and regular
file (and only those) transitively under that root after mount isolation
(`specRootBytes`), provided that sum fits in `u64`; the counter is reset to
zero at each root (the totals do not depend on state accumulated before the
root). -/
theorem C6_root_totals :
    ∀ (cfg : Config) (env : Env) (st : ScanState)
      (roots : List (List String × FsNode)) (st2 : ScanState)
      (evs : List OutEvent),
      scan cfg env st 0 roots = some (st2, evs) →
      (∀ pn ∈ roots, specRootBytes pn.2 < 2 ^ 64) →
      totalsOf evs = roots.map fun pn => specRootBytes pn.2 := by
  intro cfg env st roots st2 evs h hb
  rw [scan_zero_totals cfg env roots st st2 evs h]
  exact List.map_congr_left fun pn hpn => Nat.mod_eq_of_lt (hb pn hpn)

/-- First witness root: a 5-byte file and a 3-byte symlink (total 8). -/
def fsC6a : FsNode :=
  .dir "r1" (some (mkMeta 1 0))
    [.file "f" (some (mkMeta 1 5)) none none,
     .symlink "s" (some (mkMeta 1 3)) (some "t") false]

/-- Second witness root on another device: a 7-byte file inside a
subdirectory (total 7). -/
def fsC6b : FsNode :=
  .dir "r2" (some (mkMeta 2 0))
    [.dir "sub" (some (mkMeta 2 0)) [.file "g" (some (mkMeta 2 7)) none none]]

/-- C6, witness: a two-root scan prints `total bytes:` 8 then 7. -/
theorem C6_root_totals_witness :
    ∃ st2 evs,
      scan cfgZ env0 initState 0 [(["r1"], fsC6a), (["r2"], fsC6b)] =
        some (st2, evs) ∧
      totalsOf evs =
        [(["r1"], fsC6a), (["r2"], fsC6b)].map (fun pn => specRootBytes pn.2) ∧
      totalsOf evs = [8, 7] := by
  have hs : (scan cfgZ env0 initState 0
      [(["r1"], fsC6a), (["r2"], fsC6b)]).isSome = true := by
    simp [scan, visit, visitEntries, entryStep, okStep, report, scanHeader,
      devCheck, finishReport, cacheLookup, renderName, ownerField, padChars,
      utf8CharCount, utf8IsCont, isSymlink, isDirF, isFileF, statMeta, lstatMeta,
      entriesOf, nodeName, hashEligible, hashThreshold, dashes, fsC6a, fsC6b,
      mkMeta, cfgZ, env0, initState, readLinkTarget, fileContents, fileReadFail]
  obtain ⟨⟨st2, evs⟩, h⟩ := Option.isSome_iff_exists.mp hs
  have hb : ∀ pn ∈ [((["r1"] : List String), fsC6a), (["r2"], fsC6b)],
      specRootBytes pn.2 < 2 ^ 64 := by
    intro pn hpn
    simp at hpn
    rcases hpn with hpn | hpn <;> rw [hpn] <;>
      simp [specRootBytes, specEntriesBytes, specNodeBytes, entryBytes,
        collectsB, devCheck, isDirF, isSymlink, statMeta, entriesOf, fsC6a,
        fsC6b, mkMeta]
  have ht := C6_root_totals cfgZ env0 initState _ st2 evs h hb
  refine ⟨st2, evs, h, ht, ?_⟩
  rw [ht]
  simp [specRootBytes, specEntriesBytes, specNodeBytes, entryBytes, collectsB,
    devCheck, isDirF, isSymlink, statMeta, entriesOf, fsC6a, fsC6b, mkMeta]

/-! ### C7 -/

/-- A passing device check means the entry is a real directory with readable
metadata on the given device. -/
theorem devCheck_true_inv (dev : Nat) (n : FsNode)
    (h : devCheck dev n = some true) :
    ∃ nm mm ess, n = FsNode.dir nm (some mm) ess ∧ mm.dev = dev := by
  cases n with
  | dir nm m es =>
    cases m with
    | none => simp [devCheck, isDirF, isSymlink, statMeta] at h
    | some mm =>
      simp [devCheck, isDirF, isSymlink, statMeta] at h
      exact ⟨nm, mm, es, rfl, h⟩
  | symlink nm m t d =>
    cases m <;> simp [devCheck, isDirF, isSymlink, statMeta] at h
  | file nm m c rf => simp [devCheck, isDirF, isSymlink] at h
  | other nm m => simp [devCheck, isDirF, isSymlink] at h
  | errItem msg => simp [devCheck, isDirF, isSymlink] at h

/-- Whatever `okStep` collects is a non-symlink directory with readable
metadata on the session's device (and the device id is not changed). -/
theorem okStep_col_dir (cfg : Config) (env : Env) (st : ScanState) (depth : Nat)
    (dirpath : List String) (n : FsNode) (st1 : ScanState) (ev : OutEvent)
    (cs : List (List String × FsNode))
    (h : okStep cfg env st depth dirpath n = some (st1, ev, cs)) :
    st1.dev = st.dev ∧ ∀ pn ∈ cs, ∃ nm mm ess,
      pn.2 = FsNode.dir nm (some mm) ess ∧ mm.dev = st.dev ∧
      isSymlink pn.2 = false := by
  unfold okStep at h
  cases hrep : report cfg env st n with
  | none => rw [hrep] at h; simp at h
  | some p =>
    obtain ⟨stx, line⟩ := p
    simp only [hrep] at h
    have hdev := (report_dev cfg env st n stx line hrep).1
    cases hdc : devCheck stx.dev n with
    | none => simp [hdc] at h
    | some pass =>
      simp only [hdc, Option.some.injEq, Prod.mk.injEq] at h
      rcases h with ⟨h1, h2, h3⟩
      refine ⟨by rw [← h1]; exact hdev, ?_⟩
      intro pn hpn
      rw [← h3] at hpn
      cases pass with
      | false => simp at hpn
      | true =>
        simp at hpn
        rw [hdev] at hdc
        rcases devCheck_true_inv st.dev n hdc with ⟨nm, mm, ess, hn, hmd⟩
        exact ⟨nm, mm, ess, by rw [hpn, hn], hmd, by rw [hpn, hn]; rfl⟩

/-- C7, confirmed: (i) the traversal only collects (and hence only descends
into) non-symlink directories with readable metadata on the root's device;
(ii) a directory on a different device is still reported, as one line with
the `/ (mountpoint)` suffix and length 0; (iii) a symlinked directory is
still reported, as a symlink line with its ` -> target` suffix (and by (i)
is never descended into). -/
theorem C7_mount_isolation :
    (∀ (cfg : Config) (env : Env) (st : ScanState) (depth : Nat)
      (dirpath : List String) (es : List FsNode) (st2 : ScanState)
      (evs : List OutEvent) (col : List (List String × FsNode)),
      visitEntries cfg env st depth dirpath es = some (st2, evs, col) →
      ∀ pn ∈ col, ∃ nm mm ess, pn.2 = FsNode.dir nm (some mm) ess ∧
        mm.dev = st.dev ∧ isSymlink pn.2 = false) ∧
    (∀ (cfg : Config) (env : Env) (st : ScanState) (nm : String) (mm : Meta)
      (es : List FsNode) (st2 : ScanState) (line : EntryLine),
      mm.dev ≠ st.dev →
      report cfg env st (.dir nm (some mm) es) = some (st2, line) →
      line.extra = "/ (mountpoint)" ∧ line.flen = 0) ∧
    (∀ (cfg : Config) (env : Env) (st : ScanState) (nm : String) (mm : Meta)
      (t : Option String) (sd : Bool) (st2 : ScanState) (line : EntryLine),
      report cfg env st (.symlink nm (some mm) t sd) = some (st2, line) →
      ∃ tgt, t = some tgt ∧ line.extra = " -> " ++ tgt) := by
  refine ⟨?_, ?_, ?_⟩
  · intro cfg env st depth dirpath es
    induction es generalizing st with
    | nil =>
      intro st2 evs col h
      simp only [visitEntries, Option.some.injEq, Prod.mk.injEq] at h
      intro pn hpn
      rw [← h.2.2] at hpn
      simp at hpn
    | cons e rest ih =>
      intro st2 evs col h
      simp only [visitEntries] at h
      cases hstep : entryStep cfg env st depth dirpath e with
      | none => simp [hstep] at h
      | some p =>
        obtain ⟨st1, ev, cs⟩ := p
        simp only [hstep] at h
        cases hrec : visitEntries cfg env st1 depth dirpath rest with
        | none => simp [hrec] at h
        | some r =>
          obtain ⟨st3, evs3, col3⟩ := r
          simp only [hrec, Option.some.injEq, Prod.mk.injEq] at h
          have hstep2 : st1.dev = st.dev ∧ ∀ pn ∈ cs, ∃ nm mm ess,
              pn.2 = FsNode.dir nm (some mm) ess ∧ mm.dev = st.dev ∧
              isSymlink pn.2 = false := by
            cases e with
            | errItem msg =>
              simp [entryStep] at hstep
              obtain ⟨h1s, h2s, h3s⟩ := hstep
              subst h1s
              subst h3s
              exact ⟨rfl, by intro pn hpn; simp at hpn⟩
            | file nm m c rf => exact okStep_col_dir cfg env st depth dirpath _ st1 ev cs hstep
            | dir nm m es2 => exact okStep_col_dir cfg env st depth dirpath _ st1 ev cs hstep
            | symlink nm m t d => exact okStep_col_dir cfg env st depth dirpath _ st1 ev cs hstep
            | other nm m => exact okStep_col_dir cfg env st depth dirpath _ st1 ev cs hstep
          intro pn hpn
          rw [← h.2.2] at hpn
          rcases List.mem_append.mp hpn with hl | hl
          · exact hstep2.2 pn hl
          · rcases ih st1 st3 evs3 col3 hrec pn hl with ⟨nm, mm, ess, h4, h5, h6⟩
            exact ⟨nm, mm, ess, h4, by rw [h5, hstep2.1], h6⟩
  · intro cfg env st nm mm es st2 line hne h
    simp only [report, isSymlink, statMeta] at h
    simp only [Bool.false_eq_true, if_false] at h
    cases hu : renderName (cacheLookup st.users env.getUserByUid mm.uid).1 with
    | none => simp [hu] at h
    | some user =>
      simp only [hu] at h
      cases hg : renderName (cacheLookup st.groups env.getGroupByGid mm.gid).1 with
      | none => simp [hg] at h
      | some group =>
        simp only [hg] at h
        simp only [finishReport, isSymlink, isDirF] at h
        have hd : decide (mm.dev ≠ st.dev) = true := by simp [hne]
        simp only [hd, Bool.false_eq_true, if_false, Option.isSome_some,
          if_true, Option.some.injEq, Prod.mk.injEq] at h
        rw [← h.2]
        exact ⟨rfl, rfl⟩
  · intro cfg env st nm mm t sd st2 line h
    simp only [report, isSymlink, lstatMeta, Option.isSome_some, if_true] at h
    cases hu : renderName (cacheLookup st.users env.getUserByUid mm.uid).1 with
    | none => simp [hu] at h
    | some user =>
      simp only [hu] at h
      cases hg : renderName (cacheLookup st.groups env.getGroupByGid mm.gid).1 with
      | none => simp [hg] at h
      | some group =>
        simp only [hg] at h
        simp only [finishReport, isSymlink, Option.isSome_some, if_true] at h
        cases ht : readLinkTarget (FsNode.symlink nm (some mm) t sd) with
        | none => rw [ht] at h; simp at h
        | some tgt =>
          rw [ht] at h
          simp only [Option.some.injEq, Prod.mk.injEq] at h
          simp only [readLinkTarget] at ht
          exact ⟨tgt, ht, by rw [← h.2]⟩

/-- C7, witness: of two subdirectories, only the same-device one is
collected; the other-device one is reported with the mountpoint suffix; a
symlink to a directory is reported with its target suffix. -/
theorem C7_mount_isolation_witness :
    ∃ st2 evs col st3 line st4 line2,
      visitEntries cfgZ env0 initState 0 ["r"]
        [.dir "m" (some (mkMeta 9 0)) [], .dir "k" (some (mkMeta 0 0)) []] =
        some (st2, evs, col) ∧
      (∀ pn ∈ col, ∃ nm mm ess, pn.2 = FsNode.dir nm (some mm) ess ∧
        mm.dev = initState.dev ∧ isSymlink pn.2 = false) ∧
      report cfgZ env0 initState (.dir "m" (some (mkMeta 9 0)) []) =
        some (st3, line) ∧ line.extra = "/ (mountpoint)" ∧
      report cfgZ env0 initState
        (.symlink "s" (some (mkMeta 0 3)) (some "tgt") true) =
        some (st4, line2) ∧ line2.extra = " -> tgt" := by
  have hv : (visitEntries cfgZ env0 initState 0 ["r"]
      [.dir "m" (some (mkMeta 9 0)) [], .dir "k" (some (mkMeta 0 0)) []]).isSome
      = true := by
    simp [visitEntries, entryStep, okStep, report, devCheck, finishReport,
      cacheLookup, renderName, ownerField, padChars, utf8CharCount, utf8IsCont,
      isSymlink, isDirF, isFileF, statMeta, lstatMeta, entriesOf, nodeName,
      mkMeta, cfgZ, env0, initState, readLinkTarget]
  have hm : (report cfgZ env0 initState (.dir "m" (some (mkMeta 9 0)) [])).isSome
      = true := by
    simp [report, finishReport, cacheLookup, renderName, ownerField, padChars,
      utf8CharCount, utf8IsCont, isSymlink, isDirF, isFileF, statMeta, lstatMeta,
      nodeName, mkMeta, cfgZ, env0, initState]
  have hl : (report cfgZ env0 initState
      (.symlink "s" (some (mkMeta 0 3)) (some "tgt") true)).isSome = true := by
    simp [report, finishReport, cacheLookup, renderName, ownerField, padChars,
      utf8CharCount, utf8IsCont, isSymlink, isDirF, isFileF, statMeta, lstatMeta,
      nodeName, mkMeta, cfgZ, env0, initState, readLinkTarget]
  obtain ⟨⟨st2, evs, col⟩, h1⟩ := Option.isSome_iff_exists.mp hv
  obtain ⟨⟨st3, line⟩, h2⟩ := Option.isSome_iff_exists.mp hm
  obtain ⟨⟨st4, line2⟩, h3⟩ := Option.isSome_iff_exists.mp hl
  refine ⟨st2, evs, col, st3, line, st4, line2, h1,
    C7_mount_isolation.1 cfgZ env0 initState 0 ["r"] _ st2 evs col h1,
    h2, ?_, h3, ?_⟩
  · exact (C7_mount_isolation.2.1 cfgZ env0 initState "m" (mkMeta 9 0) [] st3
      line (by simp [mkMeta, initState]) h2).1
  · rcases C7_mount_isolation.2.2 cfgZ env0 initState "s" (mkMeta 0 3)
      (some "tgt") true st4 line2 h3 with ⟨tgt, ht, he⟩
    simp at ht
    subst ht
    rw [he]
    decide
